import Mathlib

/-!
Verification of the Schedule-Converter repository (src/models/schedule_converter.py,
src/main.py) against its natural-language specification.

The development shallowly embeds the Python code:

* character-level models of the Python string primitives the code uses
  (`str.split`, `str.strip`, `'\n'.join`, `str.startswith`);
* a model of `json.loads` restricted to the JSON fragment the program can
  meet (null/true/false/NaN/Infinity literals, integer/decimal/exponent
  number lexemes without leading zeros, strings with the standard escapes
  including non-surrogate `\uXXXX`, arrays, objects);
* `ScheduleConverter.parse_schedule_text` (both the hard-coded mock branch
  and the `USE_MOCK = False` branch, the latter parameterised by the text
  the backend returns, since the network call itself is outside the model);
* `ScheduleConverter.generate_aixm_xml`, i.e. the ElementTree build, the
  `ET.tostring` / `minidom.toprettyxml` pretty-printing composite, the
  line filter and the final strip;
* `convert_text_to_aixm`; and
* `validate_schedule_text` from src/main.py (regex translated to a
  committed recursive-descent matcher over the ASCII fragment: Python's
  `\s`, `\d`, `str.isdigit` and `int` additionally accept certain Unicode
  characters, which the model leaves out).

Python exceptions are modelled by `Except` with a structured error type;
the structured constructors carry exactly the data the corresponding
`raise` sites interpolate into their messages.
-/

namespace ScheduleConv

/-! ### Python string primitives, modelled on `List Char` -/

/-- The code points of Python's whitespace class, as a predicate on the
    code point.  `str.strip()` with no argument strips exactly the
    characters with `str.isspace() == True`, and `\s` in a `str` regex
    matches exactly the same set; it consists of the ASCII whitespace
    `\t \n \v \f \r` and space, the information separators U+001C–U+001F,
    NEL U+0085, NBSP U+00A0, OGHAM SPACE MARK U+1680, the typographic
    spaces U+2000–U+200A, LINE/PARAGRAPH SEPARATOR U+2028/U+2029, NARROW
    NBSP U+202F, MEDIUM MATHEMATICAL SPACE U+205F and IDEOGRAPHIC SPACE
    U+3000. -/
def pySpaceNat (n : Nat) : Bool :=
  (decide (9 ≤ n) && decide (n ≤ 13)) || (decide (28 ≤ n) && decide (n ≤ 32)) ||
  n == 133 || n == 160 || n == 5760 ||
  (decide (8192 ≤ n) && decide (n ≤ 8202)) || n == 8232 || n == 8233 ||
  n == 8239 || n == 8287 || n == 12288

/-- Characters matched by Python's `str.strip()` / `str.isspace()` and by
    `\s` in the source regex. -/
def isPySpace (c : Char) : Bool := pySpaceNat c.toNat

/-- Model of Python `str.strip()`. -/
def pyStripL (l : List Char) : List Char :=
  ((l.dropWhile isPySpace).reverse.dropWhile isPySpace).reverse

/-- Model of Python `str.split(sep)` for a single-character separator:
    splits at every occurrence, keeping empty pieces (`''.split(',') = ['']`). -/
def pySplit (sep : Char) : List Char → List (List Char)
  | [] => [[]]
  | c :: rest =>
    if c == sep then [] :: pySplit sep rest
    else
      match pySplit sep rest with
      | [] => [[c]]
      | h :: t => (c :: h) :: t

/-- Model of Python `sep.join(pieces)` for a single-character separator. -/
def joinSep (sep : Char) : List (List Char) → List Char
  | [] => []
  | [l] => l
  | l :: ls => l ++ sep :: joinSep sep ls

/-- Boolean test that `pat` is an initial segment of `l`; models Python
    `str.startswith`. -/
def startsWithL : List Char → List Char → Bool
  | [], _ => true
  | _ :: _, [] => false
  | a :: ps, b :: ls => a == b && startsWithL ps ls

theorem pySplit_ne_nil (sep : Char) (l : List Char) : pySplit sep l ≠ [] := by
  cases l with
  | nil => simp [pySplit]
  | cons c rest =>
    simp only [pySplit]
    split
    · simp
    · split <;> simp

theorem pySplit_no_sep {sep : Char} {a : List Char} (h : sep ∉ a) :
    pySplit sep a = [a] := by
  induction a with
  | nil => rfl
  | cons c rest ih =>
    have hc : ¬ (c == sep) = true := by
      simp only [beq_iff_eq]
      intro hcs; exact h (hcs ▸ List.mem_cons_self c rest)
    have hrest : sep ∉ rest := fun hm => h (List.mem_cons_of_mem _ hm)
    simp only [pySplit]
    rw [if_neg hc, ih hrest]

theorem pySplit_append_sep {sep : Char} {a : List Char} (b : List Char)
    (h : sep ∉ a) : pySplit sep (a ++ sep :: b) = a :: pySplit sep b := by
  induction a with
  | nil => simp [pySplit]
  | cons c rest ih =>
    have hc : ¬ (c == sep) = true := by
      simp only [beq_iff_eq]
      intro hcs; exact h (hcs ▸ List.mem_cons_self c rest)
    have hrest : sep ∉ rest := fun hm => h (List.mem_cons_of_mem _ hm)
    simp only [List.cons_append, pySplit]
    rw [if_neg hc]
    simp only [List.append_eq]
    rw [ih hrest]

theorem pySplit_joinSep {sep : Char} :
    ∀ (ls : List (List Char)), ls ≠ [] → (∀ l ∈ ls, sep ∉ l) →
      pySplit sep (joinSep sep ls) = ls
  | [], h, _ => absurd rfl h
  | [l], _, hs => by
      simp only [joinSep]
      exact pySplit_no_sep (hs l (List.mem_singleton_self l))
  | l :: l' :: ls, _, hs => by
      have h1 : sep ∉ l := hs l (List.mem_cons_self _ _)
      have hrec := pySplit_joinSep (l' :: ls) (by simp)
        (fun x hx => hs x (List.mem_cons_of_mem _ hx))
      show pySplit sep (l ++ sep :: joinSep sep (l' :: ls)) = l :: l' :: ls
      rw [pySplit_append_sep _ h1, hrec]

theorem dropWhile_append_of_all {p : Char → Bool} :
    ∀ {a : List Char} (b : List Char), (∀ c ∈ a, p c) →
      List.dropWhile p (a ++ b) = List.dropWhile p b
  | [], _, _ => rfl
  | c :: rest, b, h => by
      have hc : p c = true := h c (List.mem_cons_self _ _)
      simp only [List.cons_append, List.dropWhile_cons, hc, if_true]
      exact dropWhile_append_of_all b (fun x hx => h x (List.mem_cons_of_mem _ hx))

theorem dropWhile_cons_of_neg {p : Char → Bool} {c : Char} (l : List Char)
    (h : ¬ p c = true) : List.dropWhile p (c :: l) = c :: l := by
  simp [List.dropWhile_cons, h]

/-- Stripping a list that already starts and ends with non-whitespace
    characters is the identity. -/
theorem pyStripL_of_clean_ends {c d : Char} (mid : List Char)
    (hc : ¬ isPySpace c = true) (hd : ¬ isPySpace d = true) :
    pyStripL (c :: (mid ++ [d])) = c :: (mid ++ [d]) := by
  unfold pyStripL
  rw [dropWhile_cons_of_neg (mid ++ [d]) hc]
  rw [show (c :: (mid ++ [d])).reverse = d :: (mid.reverse ++ [c]) by simp]
  rw [dropWhile_cons_of_neg _ hd]
  simp

/-- Stripping a singleton of a non-whitespace character is the identity. -/
theorem pyStripL_singleton {c : Char} (hc : ¬ isPySpace c = true) :
    pyStripL [c] = [c] := by
  unfold pyStripL
  rw [dropWhile_cons_of_neg _ hc]
  simp only [List.reverse_cons, List.reverse_nil, List.nil_append]
  rw [dropWhile_cons_of_neg _ hc]
  simp

/-! ### JSON values and a model of Python's `json.loads` -/

/-- A decoded JSON value, i.e. the Python object `json.loads` returns.
    Number lexemes are kept as their character sequence: the program never
    inspects a numeric value, only the shape of the data. -/
inductive Json where
  | null : Json
  | bool (b : Bool) : Json
  | num (lexeme : List Char) : Json
  | str (s : String) : Json
  | arr (elems : List Json) : Json
  | obj (fields : List (String × Json)) : Json

/-- JSON insignificant whitespace (the exact set `json.loads` skips). -/
def isJsonWs (c : Char) : Bool :=
  c == ' ' || c == '\t' || c == '\n' || c == '\r'

/-- Skip JSON whitespace. -/
def jskip (l : List Char) : List Char := l.dropWhile isJsonWs

/-- Value of one hexadecimal digit. -/
def hexDigitVal (c : Char) : Option Nat :=
  let n := c.toNat
  if 48 ≤ n && n ≤ 57 then some (n - 48)
  else if 97 ≤ n && n ≤ 102 then some (n - 87)
  else if 65 ≤ n && n ≤ 70 then some (n - 55)
  else none

/-- Decoding of a single-character JSON string escape. -/
def escapeChar : Char → Option Char
  | '"' => some '"'
  | '\\' => some '\\'
  | '/' => some '/'
  | 'b' => some (Char.ofNat 8)
  | 'f' => some (Char.ofNat 12)
  | 'n' => some '\n'
  | 'r' => some '\r'
  | 't' => some '\t'
  | _ => none

/-- Parse the body of a JSON string after the opening quote, returning the
    decoded characters and the input after the closing quote.  Unescaped
    control characters are rejected, as by `json.loads` in strict mode.
    Surrogate-pair recombination for `\uXXXX` is not modelled
    (`Char.ofNat` maps lone surrogates to NUL); no input in scope uses it. -/
def parseJStr : List Char → Option (List Char × List Char)
  | [] => none
  | '"' :: rest => some ([], rest)
  | '\\' :: rest =>
    (match rest with
      | 'u' :: a :: b :: c :: d :: rest2 =>
        match hexDigitVal a, hexDigitVal b, hexDigitVal c, hexDigitVal d with
        | some va, some vb, some vc, some vd =>
          (match parseJStr rest2 with
            | some (cs, r) =>
              some (Char.ofNat (((va * 16 + vb) * 16 + vc) * 16 + vd) :: cs, r)
            | none => none)
        | _, _, _, _ => none
      | e :: rest2 =>
        match escapeChar e with
        | some ch =>
          (match parseJStr rest2 with
            | some (cs, r) => some (ch :: cs, r)
            | none => none)
        | none => none
      | [] => none)
  | c :: rest =>
    if c.toNat < 32 then none
    else
      match parseJStr rest with
      | some (cs, r) => some (c :: cs, r)
      | none => none

/-- Digit run at the front of the input. -/
def takeDigits (l : List Char) : List Char × List Char :=
  (l.takeWhile Char.isDigit, l.dropWhile Char.isDigit)

/-- Parse a JSON number lexeme (after any leading `-` has been handled by
    the caller): integer part without leading zeros, optional fraction,
    optional exponent.  Returns the lexeme characters consumed. -/
def parseJNumBody (l : List Char) : Option (List Char × List Char) :=
  match takeDigits l with
  | ([], _) => none
  | (ds, rest) =>
    if ds.length > 1 && ds.headD '0' == '0' then none
    else
      let (frac, rest2) :=
        match rest with
        | '.' :: r =>
          (match takeDigits r with
            | ([], _) => ([], rest)
            | (fs, r2) => ('.' :: fs, r2))
        | _ => ([], rest)
      if frac == [] && rest2.headD ' ' == '.' then none
      else
        match rest2 with
        | e :: r =>
          if e == 'e' || e == 'E' then
            let (sgn, r2) :=
              match r with
              | '+' :: r3 => (['+'], r3)
              | '-' :: r3 => (['-'], r3)
              | _ => ([], r)
            match takeDigits r2 with
            | ([], _) => none
            | (es, r3) => some (ds ++ frac ++ e :: sgn ++ es, r3)
          else some (ds ++ frac, rest2)
        | [] => some (ds ++ frac, rest2)

mutual

/-- Parse one JSON value, modelling the grammar `json.loads` accepts
    (including the non-standard `NaN`, `Infinity`, `-Infinity` that Python
    allows by default).  Recursion is on explicit fuel. -/
def parseJVal : Nat → List Char → Option (Json × List Char)
  | 0, _ => none
  | fuel + 1, input =>
    match jskip input with
    | [] => none
    | '{' :: r =>
      (match jskip r with
        | '}' :: r2 => some (.obj [], r2)
        | r2 =>
          match parseJMembers fuel r2 with
          | some (fs, r3) => some (.obj fs, r3)
          | none => none)
    | '[' :: r =>
      (match jskip r with
        | ']' :: r2 => some (.arr [], r2)
        | r2 =>
          match parseJItems fuel r2 with
          | some (es, r3) => some (.arr es, r3)
          | none => none)
    | '"' :: r =>
      (match parseJStr r with
        | some (cs, r2) => some (.str (String.mk cs), r2)
        | none => none)
    | 't' :: r =>
      if startsWithL ['r', 'u', 'e'] r then some (.bool true, r.drop 3) else none
    | 'f' :: r =>
      if startsWithL ['a', 'l', 's', 'e'] r then some (.bool false, r.drop 4)
      else none
    | 'n' :: r =>
      if startsWithL ['u', 'l', 'l'] r then some (.null, r.drop 3) else none
    | 'N' :: r =>
      if startsWithL ['a', 'N'] r then some (.num ['N', 'a', 'N'], r.drop 2)
      else none
    | 'I' :: r =>
      if startsWithL ['n', 'f', 'i', 'n', 'i', 't', 'y'] r then
        some (.num ("Infinity".data), r.drop 7)
      else none
    | '-' :: r =>
      if startsWithL ['I', 'n', 'f', 'i', 'n', 'i', 't', 'y'] r then
        some (.num ("-Infinity".data), r.drop 8)
      else
        (match parseJNumBody r with
          | some (lex, r2) => some (.num ('-' :: lex), r2)
          | none => none)
    | c :: r =>
      if c.isDigit then
        match parseJNumBody (c :: r) with
        | some (lex, r2) => some (.num lex, r2)
        | none => none
      else none

/-- Parse the items of a non-empty JSON array, after the opening bracket
    and any leading whitespace. -/
def parseJItems : Nat → List Char → Option (List Json × List Char)
  | 0, _ => none
  | fuel + 1, input =>
    match parseJVal fuel input with
    | some (v, r) =>
      (match jskip r with
        | ']' :: r2 => some ([v], r2)
        | ',' :: r2 =>
          (match parseJItems fuel r2 with
            | some (vs, r3) => some (v :: vs, r3)
            | none => none)
        | _ => none)
    | none => none

/-- Parse the members of a non-empty JSON object, after the opening brace
    and any leading whitespace. -/
def parseJMembers : Nat → List Char → Option (List (String × Json) × List Char)
  | 0, _ => none
  | fuel + 1, input =>
    match jskip input with
    | '"' :: r =>
      (match parseJStr r with
        | some (kcs, r2) =>
          (match jskip r2 with
            | ':' :: r3 =>
              (match parseJVal fuel r3 with
                | some (v, r4) =>
                  (match jskip r4 with
                    | '}' :: r5 => some ([(String.mk kcs, v)], r5)
                    | ',' :: r5 =>
                      (match parseJMembers fuel r5 with
                        | some (fs, r6) => some ((String.mk kcs, v) :: fs, r6)
                        | none => none)
                    | _ => none)
                | none => none)
            | _ => none)
        | none => none)
    | _ => none

end

/-- Model of `json.loads`: parse one value, then require that only
    whitespace remains.  `none` stands for `json.JSONDecodeError`.  The
    fuel `3 * length + 3` dominates the recursion depth the parser can
    reach on its input (every fuel step past the first consumes input). -/
def jsonLoads (s : String) : Option Json :=
  match parseJVal (3 * s.data.length + 3) s.data with
  | some (v, rest) => if jskip rest == [] then some v else none
  | none => none

/-! ### Errors raised by the converter

Python exceptions are modelled structurally.  `ValueError` messages are
modelled by the data the `raise` sites interpolate into them, so a
theorem naming `.missingKeys i m` states that the raised `ValueError`'s
message names index `i` and the missing key set `m`.  In the spec's
vocabulary (§7), `ValueError` raised while parsing is `ParseError` and
`ValueError` raised while rendering is `RenderError`; exceptions of any
other class are neither. -/

/-- Structured content of the `ValueError` messages in
    `parse_schedule_text` and `generate_aixm_xml`. -/
inductive ValMsg where
  | notJson : ValMsg
  | notList : ValMsg
  | notDict (i : Nat) : ValMsg
  | missingKeys (i : Nat) (missing : List String) : ValMsg
  | invalidScheduleData : ValMsg
deriving DecidableEq, Repr

/-- Exception classes the embedded code can let escape. -/
inductive PyErr where
  | valueError (msg : ValMsg) : PyErr
  | attributeError : PyErr
  | typeError : PyErr
  | expatError : PyErr
deriving DecidableEq, Repr

/-- Test for the `ValueError` class, the class the spec's `ParseError`
    and `RenderError` kinds correspond to in the code. -/
def PyErr.isValueError : PyErr → Bool
  | .valueError _ => true
  | _ => false

/-! ### `ScheduleConverter.parse_schedule_text` -/

/-- The `mock_response` triple-quoted literal of `parse_schedule_text`,
    whitespace included. -/
def mock_response : String :=
  "\n            [\n                \x7b\"timeReference\": \"UTC\", \"startDate\": \"01-01\", \"endDate\": \"31-12\", \"day\": \"WORK DAY\", \"startTime\": \"08:00\", \"endTime\": \"18:00\"\x7d,\n                \x7b\"timeReference\": \"UTC\", \"startDate\": \"01-01\", \"endDate\": \"31-12\", \"day\": \"SAT\", \"startTime\": \"08:00\", \"endTime\": \"12:00\"\x7d\n            ]\n            "

/-- The Python list `json.loads(mock_response)` evaluates to; the lemma
    `mock_response_loads` below ties this value to the literal. -/
def mock_schedules : List Json :=
  [ .obj [("timeReference", .str "UTC"), ("startDate", .str "01-01"),
      ("endDate", .str "31-12"), ("day", .str "WORK DAY"),
      ("startTime", .str "08:00"), ("endTime", .str "18:00")],
    .obj [("timeReference", .str "UTC"), ("startDate", .str "01-01"),
      ("endDate", .str "31-12"), ("day", .str "SAT"),
      ("startTime", .str "08:00"), ("endTime", .str "12:00")] ]

set_option maxRecDepth 8192 in
/-- Justification for the translation of `return json.loads(mock_response)`
    into `.ok mock_schedules`: decoding the literal yields that value. -/
theorem mock_response_loads :
    jsonLoads mock_response = some (Json.arr mock_schedules) := by rfl

/-- Model of `parse_schedule_text(self, text)`.  The source hard-codes
    `USE_MOCK = True`, so the function ignores `text` and returns
    `json.loads(mock_response)`, i.e. `mock_schedules`
    (`mock_response_loads`); no exception can be raised on this path. -/
def parse_schedule_text (_text : String) : Except PyErr (List Json) :=
  .ok mock_schedules

/-- The six keys of `required_keys` in `parse_schedule_text`, in the
    order the set literal is written. -/
def required_keys : List String :=
  ["timeReference", "startDate", "endDate", "day", "startTime", "endTime"]

/-- Model of Python `dict.get`-style lookup on the association list of a
    decoded JSON object.  When `json.loads` meets duplicate keys the last
    binding wins, hence the recursion keeps the last match. -/
def pyLookup (k : String) : List (String × Json) → Option Json
  | [] => none
  | (k', v) :: rest =>
    match pyLookup k rest with
    | some w => some w
    | none => if k' = k then some v else none

/-- The value `required_keys - set(sched.keys())` of the source, as the
    list of required keys absent from the object, in `required_keys`
    order (Python's set iteration order is irrelevant to the claims,
    which are about the set's contents). -/
def missingOf (fields : List (String × Json)) : List String :=
  required_keys.filter (fun k => (pyLookup k fields).isNone)

/-- The `for i, sched in enumerate(schedules)` validation loop of the
    `USE_MOCK = False` branch, from index `i`. -/
def checkFrom (i : Nat) : List Json → Except PyErr Unit
  | [] => .ok ()
  | .obj f :: rest =>
    if missingOf f = [] then checkFrom (i + 1) rest
    else .error (.valueError (.missingKeys i (missingOf f)))
  | _ :: _ => .error (.valueError (.notDict i))

/-- Model of the `USE_MOCK = False` branch of `parse_schedule_text`,
    parameterised by `response_text`, the text the Gemini backend returned
    (the network call itself is outside the model).  `json.JSONDecodeError`
    is caught and re-raised as `ValueError("Failed to parse LLM response as
    JSON")`; the `ValueError`s raised inside the `try` block are re-raised
    unchanged by the final generic handler. -/
def parse_schedule_text_llm (response_text : String) : Except PyErr (List Json) :=
  match jsonLoads response_text with
  | none => .error (.valueError .notJson)
  | some v =>
    match v with
    | .arr elems =>
      (match checkFrom 0 elems with
        | .ok _ => .ok elems
        | .error e => .error e)
    | _ => .error (.valueError .notList)

/-! ### `ScheduleConverter.generate_aixm_xml`

The source builds an `xml.etree.ElementTree` tree, serialises it with
`ET.tostring(root, encoding='unicode')`, re-parses with
`xml.dom.minidom.parseString`, pretty-prints with
`toprettyxml(indent="  ", encoding=None)`, drops blank lines and the
declaration line, and strips the result.  The model builds the same tree
and produces the composite's output directly: for the trees this code
creates (elements either have child elements and no text, or text and no
children), `toprettyxml` yields one line per element at two spaces per
depth level, writing an element whose only child is a text node inline
and an element with neither children nor text as self-closing, and the
net escaping applied to text is minidom's (`&`, `<`, `"`, `>`).  The
serialiser writes a text only `if text:`, so a falsy text — `None`,
`False`, a zero number, `''`, `[]`, `\x7b\x7d` — yields an empty
element, and a truthy non-string text (possible only for
backend-supplied data) makes `ET.tostring` raise `TypeError`
(`Json.pyTruthy`, `textsOkE`).  A text holding a
character that is not a valid XML 1.0 character — the C0 controls other
than tab, newline and carriage return, or U+FFFE/U+FFFF — makes
`minidom.parseString` raise `ExpatError` (`xmlCharOk`, `xmlCleanE`):
`ET.tostring` escapes only `&`, `<`, `>` in text, so the characters the
parser sees in character data are exactly the text's own characters,
plus ASCII markup and the fixed ASCII tag names.  The parser also
applies the XML line-ending normalisation to character data, turning
`\r\n` and lone `\r` into `\n` (`crNormText`); the pretty-printed output
is computed from the normalised tree. -/

/-- An ElementTree element as this code shapes them: either a container
    with child elements, or a leaf whose `.text` was assigned. -/
inductive XmlElem where
  | node (tag : String) (children : List XmlElem) : XmlElem
  | leaf (tag : String) (text : Json) : XmlElem

/-- Model of `sched.get(key, default)` on a decoded JSON object. -/
def pyGet (fields : List (String × Json)) (k : String) (d : Json) : Json :=
  (pyLookup k fields).getD d

/-- The `Timesheet` element built for one schedule dictionary, with the
    six `ET.SubElement` calls in source order and their defaults. -/
def buildTimesheet (fields : List (String × Json)) : XmlElem :=
  .node "Timesheet"
    [ .leaf "timeReference" (pyGet fields "timeReference" (.str "UTC")),
      .leaf "startDate" (pyGet fields "startDate" (.str "01-01")),
      .leaf "endDate" (pyGet fields "endDate" (.str "31-12")),
      .leaf "day" (pyGet fields "day" (.str "EVERY DAY")),
      .leaf "startTime" (pyGet fields "startTime" (.str "00:00")),
      .leaf "endTime" (pyGet fields "endTime" (.str "23:59")) ]

/-- The `timeInterval` element built for one schedule dictionary. -/
def buildInterval (fields : List (String × Json)) : XmlElem :=
  .node "timeInterval" [buildTimesheet fields]

/-- The `for sched in schedules` loop.  Calling `.get` on a schedule that
    is not a dictionary raises `AttributeError`, which the function's
    generic `except` handler re-raises unchanged; the loop stops at the
    first such schedule. -/
def buildIntervals : List Json → Except PyErr (List XmlElem)
  | [] => .ok []
  | .obj f :: rest =>
    (match buildIntervals rest with
      | .ok ivs => .ok (buildInterval f :: ivs)
      | .error e => .error e)
  | _ :: _ => .error .attributeError

/-- Net escaping the `tostring`/`parseString`/`toprettyxml` composite
    applies to element text (minidom's `_write_data`). -/
def escChar (c : Char) : List Char :=
  if c = '&' then "&amp;".data
  else if c = '<' then "&lt;".data
  else if c = '"' then "&quot;".data
  else if c = '>' then "&gt;".data
  else [c]

/-- Escape a whole text value. -/
def escText (s : List Char) : List Char := s.flatMap escChar

/-- Indentation at element depth `d`: `d` copies of the two-space unit
    passed to `toprettyxml`. -/
def indentL (d : Nat) : List Char := List.replicate (2 * d) ' '

/-- Numeric value of a digit string (used on JSON number lexemes). -/
def natOfDigits (ds : List Char) : Nat :=
  ds.foldl (fun acc c => 10 * acc + (c.toNat - 48)) 0

/-- The mantissa digits of a JSON number lexeme: every digit before the
    exponent marker (integer and fraction parts). -/
def jnumMantissa (lx : List Char) : List Char :=
  (lx.takeWhile (fun c => !(c == 'e' || c == 'E'))).filter Char.isDigit

/-- The number of fraction digits of a JSON number lexeme. -/
def jnumFracLen (lx : List Char) : Nat :=
  ((lx.takeWhile (fun c => !(c == 'e' || c == 'E'))).dropWhile
    (fun c => !(c == '.'))).length - 1

/-- The signed exponent of a JSON number lexeme (0 when absent). -/
def jnumExp (lx : List Char) : Int :=
  match (lx.dropWhile (fun c => !(c == 'e' || c == 'E'))).drop 1 with
  | '-' :: ds => -(natOfDigits ds : Int)
  | '+' :: ds => (natOfDigits ds : Int)
  | ds => (natOfDigits ds : Int)

/-- Whether `json.loads` turns this number lexeme into a falsy Python
    value: the integer `0` (a lexeme without fraction or exponent
    decodes to `int`), or a `float` equal to `0.0` — mantissa zero, or
    magnitude at most `2^(-1075)`, the threshold at and below which
    IEEE-754 round-to-nearest-even underflows to zero.  The value is
    `m·10^(exp-frac)`; for a negative decimal exponent `negE` the test
    `m·2^1075 ≤ 10^negE` is exact, and is decided without computing the
    large power whenever `negE` reaches the digit count of `m` plus
    324, since `2^1075 < 10^324`. -/
def jnumIsZero (lx : List Char) : Bool :=
  if natOfDigits (jnumMantissa lx) = 0 then true
  else if lx.all (fun c => c.isDigit || c == '-') then false
  else
    match jnumExp lx - (jnumFracLen lx : Int) with
    | .ofNat _ => false
    | .negSucc k =>
      if (jnumMantissa lx).length + 324 ≤ k + 1 then true
      else decide (natOfDigits (jnumMantissa lx) * 2 ^ 1075 ≤ 10 ^ (k + 1))

/-- Python truthiness of a decoded JSON value, as `bool(x)` computes
    it; `ET.tostring` writes an element's text only `if text:`. -/
def Json.pyTruthy : Json → Bool
  | .null => false
  | .bool b => b
  | .str s => !s.data.isEmpty
  | .num lx => !jnumIsZero lx
  | .arr l => !l.isEmpty
  | .obj f => !f.isEmpty

mutual

/-- Lines `toprettyxml` produces for one element at depth `d` (each line
    without its trailing newline).  A falsy text is never written, so
    its element is empty; the `.error .typeError` branch totalises the
    function on a truthy non-string text — in `generate_aixm_xml` such
    a tree is already rejected by the `ET.tostring` stage (`textsOkE`),
    so the pretty-printer only ever runs on texts that serialise. -/
def prettyLinesE (d : Nat) : XmlElem → Except PyErr (List (List Char))
  | .node tag [] => .ok [indentL d ++ '<' :: tag.data ++ "/>".data]
  | .node tag (c :: cs) =>
    (match prettyList (d + 1) (c :: cs) with
      | .ok body =>
        .ok ((indentL d ++ '<' :: tag.data ++ ['>']) :: body
          ++ [indentL d ++ "</".data ++ tag.data ++ ['>']])
      | .error e => .error e)
  | .leaf tag t =>
    match t with
    | .str s =>
      if s.data = [] then .ok [indentL d ++ '<' :: tag.data ++ "/>".data]
      else
        .ok [indentL d ++ '<' :: tag.data ++ '>' :: escText s.data
          ++ "</".data ++ tag.data ++ ['>']]
    | _ =>
      if t.pyTruthy then .error .typeError
      else .ok [indentL d ++ '<' :: tag.data ++ "/>".data]

/-- Lines for a list of sibling elements, in order. -/
def prettyList (d : Nat) : List XmlElem → Except PyErr (List (List Char))
  | [] => .ok []
  | e :: es =>
    match prettyLinesE d e with
    | .ok l =>
      (match prettyList d es with
        | .ok r => .ok (l ++ r)
        | .error err => .error err)
    | .error err => .error err

end

/-- The declaration line `toprettyxml` puts first. -/
def declLine : List Char := "<?xml version=\"1.0\" ?>".data

/-- The full `toprettyxml` character stream: every line, the declaration
    first, followed by a newline. -/
def prettyStream (lines : List (List Char)) : List Char :=
  (declLine :: lines).flatMap (fun l => l ++ ['\n'])

/-- The filter applied to each line of the split pretty string:
    `line.strip() and not line.startswith('<?xml')`. -/
def lineKeep (l : List Char) : Bool :=
  !(pyStripL l == []) && !(startsWithL "<?xml".data l)

/-- Whether a decoded JSON value is acceptable as an element's `.text`
    for `ET.tostring`: the serialiser writes the text only `if text:`,
    so every falsy value (`None`, `False`, a zero number, `''`, `[]`,
    `\x7b\x7d`) serialises as an empty element, a truthy string is
    escaped and written, and a truthy non-string raises `TypeError`
    from `_escape_cdata`. -/
def Json.textOk : Json → Bool
  | .str _ => true
  | t => !t.pyTruthy

mutual

/-- `ET.tostring` succeeds on this tree; on the first `.text` that is
    neither a string nor `None` it raises `TypeError` instead.  The tag
    names are the source's fixed ASCII literals, so texts are the only
    possible serialisation failure. -/
def textsOkE : XmlElem → Bool
  | .node _ cs => textsOkList cs
  | .leaf _ t => t.textOk

/-- `textsOkE` over a sibling list. -/
def textsOkList : List XmlElem → Bool
  | [] => true
  | e :: es => textsOkE e && textsOkList es

end

/-- Valid XML 1.0 characters, the set `expat` accepts in character data:
    tab, newline, carriage return, and everything from space upward
    except U+FFFE and U+FFFF (the surrogate block is not representable
    in `Char`). -/
def xmlCharOk (c : Char) : Bool :=
  c.toNat == 9 || c.toNat == 10 || c.toNat == 13 ||
  (decide (32 ≤ c.toNat) && decide (c.toNat ≤ 55295)) ||
  (decide (57344 ≤ c.toNat) && decide (c.toNat ≤ 65533)) ||
  decide (65536 ≤ c.toNat)

mutual

/-- `minidom.parseString` succeeds on the `ET.tostring` serialisation of
    this tree; a text holding an XML-invalid character makes `expat`
    raise `ExpatError`.  Only string texts matter: truthy non-string
    texts are rejected earlier by `ET.tostring`, falsy ones contribute
    no characters, and the remaining characters of the serialisation
    (tags, markup, the expansions of the escaped `& < >`) are fixed
    valid ASCII. -/
def xmlCleanE : XmlElem → Bool
  | .node _ cs => xmlCleanList cs
  | .leaf _ t =>
    match t with
    | .str s => s.data.all xmlCharOk
    | _ => true

/-- `xmlCleanE` over a sibling list. -/
def xmlCleanList : List XmlElem → Bool
  | [] => true
  | e :: es => xmlCleanE e && xmlCleanList es

end

/-- XML line-ending normalisation the parser applies to character data:
    `\r\n` and a lone `\r` both become `\n`. -/
def crNormText : List Char → List Char
  | [] => []
  | '\r' :: '\n' :: rest => '\n' :: crNormText rest
  | '\r' :: rest => '\n' :: crNormText rest
  | c :: rest => c :: crNormText rest

mutual

/-- The tree `minidom.parseString` hands to `toprettyxml`: the same
    element structure with every text's line endings normalised. -/
def crNormElem : XmlElem → XmlElem
  | .node tag cs => .node tag (crNormList cs)
  | .leaf tag t =>
    match t with
    | .str s => .leaf tag (.str (String.mk (crNormText s.data)))
    | _ => .leaf tag t

/-- `crNormElem` over a sibling list. -/
def crNormList : List XmlElem → List XmlElem
  | [] => []
  | e :: es => crNormElem e :: crNormList es

end

/-- Model of `generate_aixm_xml(self, schedules)`, stage by stage: the
    `for sched in schedules` loop (`buildIntervals`; an `AttributeError`
    from a non-dict is re-raised unchanged), `ET.tostring` (`textsOkE`;
    a non-string, non-`None` text raises `TypeError`, re-raised
    unchanged), `minidom.parseString` (`xmlCleanE`; an XML-invalid
    character in a text raises `ExpatError`, re-raised unchanged, and
    the parser normalises line endings in character data, `crNormElem`),
    `toprettyxml` (`prettyLinesE`/`prettyStream`), and the final
    split/filter/join/strip of the source's last two lines.  The `except
    KeyError` handler of the source (which would re-raise as
    `ValueError(f"Invalid schedule data: missing key {e}")`) is dead:
    `dict.get` never raises `KeyError`, and no other statement of the
    `try` block does; the generic handler re-raises everything else
    unchanged, which the error cases model. -/
def generate_aixm_xml (schedules : List Json) : Except PyErr String :=
  match buildIntervals schedules with
  | .error e => .error e
  | .ok ivs =>
    if textsOkE (.node "PropertiesWithSchedule" ivs) then
      if xmlCleanE (.node "PropertiesWithSchedule" ivs) then
        match prettyLinesE 0 (crNormElem (.node "PropertiesWithSchedule" ivs)) with
        | .error e => .error e
        | .ok lines =>
          .ok (String.mk (pyStripL (joinSep '\n'
            ((pySplit '\n' (prettyStream lines)).filter lineKeep))))
      else .error .expatError
    else .error .typeError

/-- Model of `convert_text_to_aixm(self, text)`: parse, then render; the
    `try/except` re-raises any error unchanged. -/
def convert_text_to_aixm (text : String) : Except PyErr String :=
  match parse_schedule_text text with
  | .ok schedules => generate_aixm_xml schedules
  | .error e => .error e

/-! ### Records with string fields

The spec's `ScheduleRecord` (§3) has six string fields.  A record is
modelled as an association list of string values; `recJson` injects it
into the decoded-JSON world where `generate_aixm_xml` lives. -/

/-- A schedule record with string values (`Dict[str, str]`). -/
abbrev Rec : Type := List (String × String)

/-- The JSON object carrying the record. -/
def recFields (r : Rec) : List (String × Json) :=
  r.map (fun kv => (kv.1, Json.str kv.2))

/-- The record as a decoded JSON value. -/
def recJson (r : Rec) : Json := .obj (recFields r)

/-- String-level lookup matching `pyLookup` through `recFields`. -/
def rlookup (k : String) : Rec → Option String
  | [] => none
  | (k', v) :: rest =>
    match rlookup k rest with
    | some w => some w
    | none => if k' = k then some v else none

/-- String-level `dict.get` with default. -/
def rget (r : Rec) (k d : String) : String := (rlookup k r).getD d

theorem pyLookup_recFields (k : String) :
    ∀ r : Rec, pyLookup k (recFields r) = (rlookup k r).map Json.str
  | [] => rfl
  | (k', v) :: rest => by
      simp only [recFields, List.map_cons, pyLookup, rlookup]
      rw [show pyLookup k (List.map (fun kv => (kv.1, Json.str kv.2)) rest)
          = (rlookup k rest).map Json.str from pyLookup_recFields k rest]
      cases rlookup k rest with
      | some w => rfl
      | none => cases h : decide (k' = k) <;> simp_all

theorem pyGet_recFields (r : Rec) (k d : String) :
    pyGet (recFields r) k (.str d) = .str (rget r k d) := by
  unfold pyGet rget
  rw [pyLookup_recFields]
  cases rlookup k r <;> rfl

/-- Rendering a record list never meets a non-dictionary. -/
theorem buildIntervals_recJson :
    ∀ rs : List Rec, buildIntervals (rs.map recJson)
      = .ok (rs.map (fun r => buildInterval (recFields r)))
  | [] => rfl
  | r :: rest => by
      simp only [List.map_cons, recJson, buildIntervals]
      rw [buildIntervals_recJson rest]

/-- The record after the XML parser's line-ending normalisation of its
    values. -/
def recNorm (r : Rec) : Rec :=
  r.map (fun kv => (kv.1, String.mk (crNormText (kv.2 : String).data)))

/-- Serialisability of a record list: no text of the tree built from it
    holds an XML-invalid character, so `minidom.parseString` accepts the
    serialisation. -/
def recsXmlOk (rs : List Rec) : Bool :=
  xmlCleanList (rs.map (fun r => buildInterval (recFields r)))

theorem rlookup_recNorm (k : String) :
    ∀ r : Rec, rlookup k (recNorm r)
      = (rlookup k r).map (fun v => String.mk (crNormText v.data))
  | [] => rfl
  | (k', v) :: rest => by
      simp only [recNorm, List.map_cons, rlookup]
      rw [show rlookup k (List.map
            (fun kv => (kv.1, String.mk (crNormText (kv.2 : String).data))) rest)
          = (rlookup k rest).map (fun v => String.mk (crNormText v.data))
        from rlookup_recNorm k rest]
      cases rlookup k rest with
      | some w => rfl
      | none => cases h : decide (k' = k) <;> simp_all

theorem rget_recNorm (r : Rec) (k d : String) (hd : crNormText d.data = d.data) :
    rget (recNorm r) k d = String.mk (crNormText (rget r k d).data) := by
  unfold rget
  rw [rlookup_recNorm]
  cases h : rlookup k r with
  | none =>
    simp only [Option.map_none', Option.getD_none]
    rw [hd]
  | some v => rfl

theorem crNormElem_interval (r : Rec) :
    crNormElem (buildInterval (recFields r))
      = buildInterval (recFields (recNorm r)) := by
  unfold buildInterval buildTimesheet
  rw [pyGet_recFields, pyGet_recFields, pyGet_recFields, pyGet_recFields,
    pyGet_recFields, pyGet_recFields, pyGet_recFields, pyGet_recFields,
    pyGet_recFields, pyGet_recFields, pyGet_recFields, pyGet_recFields]
  rw [rget_recNorm r "timeReference" "UTC" (by decide),
    rget_recNorm r "startDate" "01-01" (by decide),
    rget_recNorm r "endDate" "31-12" (by decide),
    rget_recNorm r "day" "EVERY DAY" (by decide),
    rget_recNorm r "startTime" "00:00" (by decide),
    rget_recNorm r "endTime" "23:59" (by decide)]
  simp only [crNormElem, crNormList]

theorem crNormList_intervals :
    ∀ rs : List Rec,
      crNormList (rs.map (fun r => buildInterval (recFields r)))
        = (rs.map recNorm).map (fun r => buildInterval (recFields r))
  | [] => rfl
  | r :: rest => by
      simp only [List.map_cons, crNormList, crNormElem_interval r,
        crNormList_intervals rest]

theorem textsOkE_interval (r : Rec) :
    textsOkE (buildInterval (recFields r)) = true := by
  unfold buildInterval buildTimesheet
  rw [pyGet_recFields, pyGet_recFields, pyGet_recFields, pyGet_recFields,
    pyGet_recFields, pyGet_recFields]
  simp [textsOkE, textsOkList, Json.textOk]

theorem textsOkList_intervals :
    ∀ rs : List Rec,
      textsOkList (rs.map (fun r => buildInterval (recFields r))) = true
  | [] => rfl
  | r :: rest => by
      simp only [List.map_cons, textsOkList, textsOkE_interval r,
        textsOkList_intervals rest, Bool.and_self]

/-- Record trees always pass the `ET.tostring` stage: every text is a
    string. -/
theorem textsOk_root (rs : List Rec) :
    textsOkE (.node "PropertiesWithSchedule"
      (rs.map (fun r => buildInterval (recFields r)))) = true := by
  simp only [textsOkE]
  exact textsOkList_intervals rs

theorem xmlClean_root {rs : List Rec} (h : recsXmlOk rs = true) :
    xmlCleanE (.node "PropertiesWithSchedule"
      (rs.map (fun r => buildInterval (recFields r)))) = true := by
  simp only [xmlCleanE]
  exact h

/-- On a text without a carriage return the normalisation keeps every
    character. -/
theorem crNormText_cons_ne {c : Char} (rest : List Char) (hc : ¬ c = '\r') :
    crNormText (c :: rest) = c :: crNormText rest := by
  rw [crNormText.eq_def]
  split
  · rename_i heq
    exact absurd heq (by simp)
  · rename_i heq
    injection heq with h1 _
    exact absurd h1 hc
  · rename_i heq
    injection heq with h1 _
    exact absurd h1 hc
  · rename_i heq
    injection heq with h1 h2
    rw [← h1, ← h2]

theorem crNormText_id : ∀ {l : List Char}, '\r' ∉ l → crNormText l = l
  | [], _ => rfl
  | c :: rest, h => by
      have hc : ¬ c = '\r' := fun he => h (he ▸ List.mem_cons_self c rest)
      rw [crNormText_cons_ne rest hc,
        crNormText_id (fun hm => h (List.mem_cons_of_mem _ hm))]

theorem recNorm_id :
    ∀ {r : Rec}, (∀ kv ∈ r, '\r' ∉ (kv.2 : String).data) → recNorm r = r
  | [], _ => rfl
  | (k, v) :: rest, h => by
      have hv : '\r' ∉ v.data := h (k, v) (List.mem_cons_self _ _)
      have hrest := recNorm_id (fun kv hkv => h kv (List.mem_cons_of_mem _ hkv))
      show (k, String.mk (crNormText v.data)) :: recNorm rest = (k, v) :: rest
      rw [crNormText_id hv, hrest]

theorem recNorm_map_id {rs : List Rec}
    (h : ∀ r ∈ rs, ∀ kv ∈ r, '\r' ∉ (kv.2 : String).data) :
    rs.map recNorm = rs := by
  induction rs with
  | nil => rfl
  | cons r rest ih =>
    rw [List.map_cons, recNorm_id (h r (List.mem_cons_self _ _)),
      ih (fun x hx => h x (List.mem_cons_of_mem _ hx))]

/-! ### `validate_schedule_text` (src/main.py)

The function first rejects blank text, then matches the anchored regex

  `^\s*(?:TOK\s*:\s*\d{4}-\d{4})\s*(?:,\s*(?:TOK\s*:\s*\d{4}-\d{4})\s*)*$`

(`TOK` the alternation of the twelve day tokens), then re-splits the text
on `,` and `:` and `-` to range-check the four-digit groups.  The
character classes are Python's Unicode ones: `\s` is the `str.isspace()`
set (`pySpaceNat`), `\d` is Unicode category Nd (`isPyDigit`).  The regex
is translated to a committed (non-backtracking) matcher; this is
equivalent to the backtracking regex on this pattern because each
alternative branch point is deterministic: the whitespace class is
disjoint from every character that can follow a `\s*` (`:`, `,`, the Nd
digits — no Nd run meets the isspace set, see `ndBases_space_free` — the
initial letters of the tokens, end of input), and when two day tokens
share a prefix (`MON`/`MON-FRI`/`MON-SAT`, `SUN`/`SUN-FRI`/`SUN-SAT`)
the pattern lists the longer first, and after the longer token matched,
the shorter alternative can never rescue a failed continuation since the
continuation `\s*:` cannot match text beginning with `-`.  Python's `$`
may also match before a trailing newline, but the preceding `\s*` already
absorbs any trailing whitespace, so anchoring at end of input is
equivalent. -/

/-- First code points of the 66 runs of Unicode category Nd (Unicode
    15.0, as shipped with CPython 3.11).  Every Nd character sits in a
    run of exactly ten consecutive code points `b, b+1, …, b+9`, and its
    decimal digit value is its offset from the run's base. -/
def ndBases : List Nat :=
  [48, 1632, 1776, 1984, 2406, 2534, 2662, 2790, 2918, 3046, 3174, 3302,
   3430, 3558, 3664, 3792, 3872, 4160, 4240, 6112, 6160, 6470, 6608, 6784,
   6800, 6992, 7088, 7232, 7248, 42528, 43216, 43264, 43472, 43504, 43600,
   44016, 65296, 66720, 68912, 69734, 69872, 69942, 70096, 70384, 70736,
   70864, 71248, 71360, 71472, 71904, 72016, 72784, 73040, 73120, 92768,
   92864, 93008, 120782, 120792, 120802, 120812, 120822, 123200, 123632,
   125264, 130032]

/-- The characters `\d` matches in a `str` regex: Unicode category Nd.
    This is also the exact set on which the loop's guard-then-convert
    composite succeeds: `str.isdigit()` is true on a strict superset of
    Nd (128 further characters such as superscripts and circled digits),
    but `int()` raises `ValueError` on every string holding one of those,
    which the loop's `except ValueError` turns into the same `False` that
    a failed `isdigit` check produces — so Nd membership is the
    extensionally exact model of `isdigit`-and-`int`-succeeds. -/
def isPyDigit (c : Char) : Bool :=
  ndBases.any (fun b => decide (b ≤ c.toNat) && decide (c.toNat ≤ b + 9))

/-- The decimal digit value `int` assigns to one Nd character: its offset
    in its run (0 for characters outside Nd, on which `int` raises). -/
def ndVal (c : Char) : Nat :=
  match ndBases.find? (fun b => decide (b ≤ c.toNat) && decide (c.toNat ≤ b + 9)) with
  | some b => c.toNat - b
  | none => 0

/-- The twelve day-token alternatives, in the order the pattern lists
    them. -/
def dayTokens : List (List Char) :=
  ["MON-FRI", "SUN-FRI", "MON-SAT", "SUN-SAT", "MON", "TUE", "WED",
   "THU", "FRI", "SAT", "SUN", "Every day"].map String.data

/-- Try each alternative in order and commit to the first that matches. -/
def matchTokenAux : List (List Char) → List Char → Option (List Char × List Char)
  | [], _ => none
  | t :: ts, l =>
    if startsWithL t l then some (t, l.drop t.length) else matchTokenAux ts l

/-- Match the day-token alternation at the front of the input. -/
def matchToken (l : List Char) : Option (List Char × List Char) :=
  matchTokenAux dayTokens l

/-- Match `\d{4}` at the front of the input (`\d` = Unicode Nd). -/
def parse4d : List Char → Option (List Char × List Char)
  | a :: b :: c :: d :: r =>
    if isPyDigit a && isPyDigit b && isPyDigit c && isPyDigit d then
      some ([a, b, c, d], r)
    else none
  | _ => none

/-- The two four-digit groups of one matched clause. -/
structure RawClause where
  st : List Char
  et : List Char
deriving DecidableEq, Repr

/-- Match one `TOK\s*:\s*\d{4}-\d{4}` clause at the front of the input. -/
def parseClause (l : List Char) : Option (RawClause × List Char) :=
  match matchToken l with
  | none => none
  | some (_, r0) =>
    match r0.dropWhile isPySpace with
    | ':' :: r2 =>
      (match parse4d (r2.dropWhile isPySpace) with
        | some (st, r4) =>
          (match r4 with
            | '-' :: r5 =>
              (match parse4d r5 with
                | some (et, r6) => some ({ st := st, et := et }, r6)
                | none => none)
            | _ => none)
        | none => none)
    | _ => none

/-- Match the `(?:,\s*TOK\s*:\s*\d{4}-\d{4}\s*)*$` tail.  The input must
    be empty or start with a comma; each iteration consumes at least the
    comma, so fuel bounded by the input length suffices. -/
def parseClausesAux (fuel : Nat) (m : List Char) : Option (List RawClause) :=
  match m with
  | [] => some []
  | c0 :: r =>
    match fuel with
    | 0 => none
    | fuel + 1 =>
      if c0 = ',' then
        match parseClause (r.dropWhile isPySpace) with
        | some (c, r2) =>
          (match parseClausesAux fuel (r2.dropWhile isPySpace) with
            | some cs => some (c :: cs)
            | none => none)
        | none => none
      else none

/-- Model of `re.match(pattern, text)`: the matched clauses' digit
    groups, or `none` when the regex does not match. -/
def regexMatchClauses (l : List Char) : Option (List RawClause) :=
  match parseClause (l.dropWhile isPySpace) with
  | some (c, r) =>
    (match parseClausesAux r.length (r.dropWhile isPySpace) with
      | some cs => some (c :: cs)
      | none => none)
  | none => none

/-- Numeric value of a two-digit group, as `int` computes it on the
    sliced digit pair (any Nd digits, not only ASCII). -/
def dig2 (a b : Char) : Nat := 10 * ndVal a + ndVal b

/-- The checks the loop body applies to the two stripped time strings:
    both of length 4 and all digits — the `isdigit` guard together with
    the `int` conversions succeeding, which is exactly Nd membership (see
    `isPyDigit`) — then hours at most 23 and minutes at most 59 (the
    lower bounds are vacuous for digit strings). -/
def checkTimes : List Char → List Char → Bool
  | [a, b, c, d], [e, f, g, h] =>
    (isPyDigit a && isPyDigit b && isPyDigit c && isPyDigit d &&
      isPyDigit e && isPyDigit f && isPyDigit g && isPyDigit h) &&
    (decide (dig2 a b ≤ 23) && decide (dig2 c d ≤ 59) &&
      decide (dig2 e f ≤ 23) && decide (dig2 g h ≤ 59))
  | _, _ => false

/-- One iteration of the `for sched in schedules` loop of
    `validate_schedule_text`, on the stripped clause text: the tuple
    unpacking of `sched.split(':')` and `time_part.split('-')` raises
    `ValueError` (caught, yielding `False`) unless each yields exactly
    two pieces. -/
def clauseLoopBody (sched : List Char) : Bool :=
  match (pySplit ':' sched).map pyStripL with
  | [_, time_part] =>
    (match (pySplit '-' time_part).map pyStripL with
      | [st, et] => checkTimes st et
      | _ => false)
  | _ => false

/-- Model of `validate_schedule_text(text)` from src/main.py. -/
def validate_schedule_text (t : String) : Bool :=
  if pyStripL t.data = [] then false
  else if (regexMatchClauses t.data).isSome then
    ((pySplit ',' t.data).map pyStripL).all clauseLoopBody
  else false

/-! ### The §6 grammar, modelled from the specification's words

To compare `validate_schedule_text` with the claim that it accepts
exactly the §6 texts, the spec grammar — a comma-separated list of
`<DAY-TOKEN>: HHMM-HHMM` clauses over the twelve day tokens, with `HHMM`
made of decimal digits `0`–`9`, hour 00–23 and minute 00–59 — is
modelled separately, with ASCII terminals as the spec's examples write
them.  The reading is generous about layout (any amount of ASCII
whitespace around separators), which only enlarges the accepted set; the
divergence exhibited in the C9 counterexample concerns the digit and
whitespace alphabets themselves, which §6 gives no licence to extend
beyond ASCII. -/

/-- ASCII whitespace, the layout characters of the spec's examples. -/
def spec6Ws (c : Char) : Bool :=
  c == ' ' || c == '\t' || c == '\n' || c == '\x0b' || c == '\x0c' || c == '\r'

/-- The spec's `HHMM` digits: ASCII `0`–`9`. -/
def spec6Digit (c : Char) : Bool :=
  decide (48 ≤ c.toNat) && decide (c.toNat ≤ 57)

/-- One `HHMM` group of the spec grammar: four ASCII digits, read as an
    hour and a minute. -/
def spec6Time : List Char → Option (Nat × Nat × List Char)
  | a :: b :: c :: d :: r =>
    if spec6Digit a && spec6Digit b && spec6Digit c && spec6Digit d then
      some (10 * (a.toNat - 48) + (b.toNat - 48),
        10 * (c.toNat - 48) + (d.toNat - 48), r)
    else none
  | _ => none

/-- One `<DAY-TOKEN>: HHMM-HHMM` clause of the spec grammar; the
    returned flag records the clause's hour/minute range conditions. -/
def spec6Clause (l : List Char) : Option (Bool × List Char) :=
  match matchToken l with
  | none => none
  | some (_, r0) =>
    match r0.dropWhile spec6Ws with
    | ':' :: r2 =>
      (match spec6Time (r2.dropWhile spec6Ws) with
        | some (sh, sm, r4) =>
          (match r4 with
            | '-' :: r5 =>
              (match spec6Time r5 with
                | some (eh, em, r6) =>
                  some (decide (sh ≤ 23) && decide (sm ≤ 59) &&
                    decide (eh ≤ 23) && decide (em ≤ 59), r6)
                | none => none)
            | _ => none)
        | none => none)
    | _ => none

/-- The `, clause` tail of the spec grammar. -/
def spec6Tail (fuel : Nat) (m : List Char) : Option Bool :=
  match m with
  | [] => some true
  | c0 :: r =>
    match fuel with
    | 0 => none
    | fuel + 1 =>
      if c0 = ',' then
        match spec6Clause (r.dropWhile spec6Ws) with
        | some (ok1, r2) =>
          (match spec6Tail fuel (r2.dropWhile spec6Ws) with
            | some ok2 => some (ok1 && ok2)
            | none => none)
        | none => none
      else none

/-- The §6 acceptance condition as the claim states it: the text is a
    comma-separated list of `<DAY-TOKEN>: HHMM-HHMM` clauses and every
    clause's hour is at most 23 and minute at most 59. -/
def spec6_ok (t : String) : Bool :=
  match spec6Clause (t.data.dropWhile spec6Ws) with
  | some (ok1, r) =>
    (match spec6Tail r.length (r.dropWhile spec6Ws) with
      | some ok2 => ok1 && ok2
      | none => false)
  | none => false

/-- Range admissibility of one clause, on the digit groups the regex
    matched: hours in 00..23, minutes in 00..59. -/
def rangeOk (c : RawClause) : Bool :=
  match c.st, c.et with
  | [a, b, c', d], [e, f, g, h] =>
    decide (dig2 a b ≤ 23) && decide (dig2 c' d ≤ 59) &&
      decide (dig2 e f ≤ 23) && decide (dig2 g h ≤ 59)
  | _, _ => false

/-! ### The pretty-printed lines of a rendered record list -/

/-- The single line `toprettyxml` writes for a leaf element. -/
def leafLine (d : Nat) (tag : String) (v : String) : List Char :=
  if v.data = [] then indentL d ++ '<' :: tag.data ++ "/>".data
  else indentL d ++ '<' :: tag.data ++ '>' :: escText v.data
    ++ "</".data ++ tag.data ++ ['>']

/-- The ten pretty lines of one record's `timeInterval` block. -/
def tsLines (r : Rec) : List (List Char) :=
  [ "  <timeInterval>".data,
    "    <Timesheet>".data,
    leafLine 3 "timeReference" (rget r "timeReference" "UTC"),
    leafLine 3 "startDate" (rget r "startDate" "01-01"),
    leafLine 3 "endDate" (rget r "endDate" "31-12"),
    leafLine 3 "day" (rget r "day" "EVERY DAY"),
    leafLine 3 "startTime" (rget r "startTime" "00:00"),
    leafLine 3 "endTime" (rget r "endTime" "23:59"),
    "    </Timesheet>".data,
    "  </timeInterval>".data ]

/-- All pretty lines of the document body for a record list. -/
def bodyLines (rs : List Rec) : List (List Char) :=
  match rs with
  | [] => ["<PropertiesWithSchedule/>".data]
  | _ :: _ =>
    "<PropertiesWithSchedule>".data :: rs.flatMap tsLines
      ++ ["</PropertiesWithSchedule>".data]

theorem prettyLinesE_leaf (d : Nat) (tag v : String) :
    prettyLinesE d (.leaf tag (.str v)) = .ok [leafLine d tag v] := by
  unfold prettyLinesE leafLine
  by_cases h : v.data = [] <;> simp [h]

theorem prettyLinesE_interval (r : Rec) :
    prettyLinesE 1 (buildInterval (recFields r)) = .ok (tsLines r) := by
  unfold buildInterval buildTimesheet
  rw [pyGet_recFields, pyGet_recFields, pyGet_recFields, pyGet_recFields,
    pyGet_recFields, pyGet_recFields]
  simp only [prettyLinesE, prettyList, tsLines, leafLine]
  split_ifs <;> rfl

theorem prettyList_records :
    ∀ rs : List Rec,
      prettyList 1 (rs.map (fun r => buildInterval (recFields r)))
        = .ok (rs.flatMap tsLines)
  | [] => rfl
  | r :: rest => by
      simp only [List.map_cons, prettyList, prettyLinesE_interval r,
        prettyList_records rest, List.flatMap_cons]

theorem prettyLinesE_root (rs : List Rec) :
    prettyLinesE 0 (.node "PropertiesWithSchedule"
        (rs.map (fun r => buildInterval (recFields r))))
      = .ok (bodyLines rs) := by
  cases rs with
  | nil => rfl
  | cons r rest =>
    have h : prettyList 1 ((r :: rest).map (fun x => buildInterval (recFields x)))
        = .ok ((r :: rest).flatMap tsLines) := prettyList_records (r :: rest)
    simp only [List.map_cons, List.flatMap_cons] at h
    simp only [List.map_cons, prettyLinesE, h]
    simp [bodyLines, indentL, List.flatMap_cons]

/-! ### Relating the line stream, the split, the filter and the strip -/

theorem pySplit_cons_pos {sep c : Char} (rest : List Char) (hc : (c == sep) = true) :
    pySplit sep (c :: rest) = [] :: pySplit sep rest := by
  simp [pySplit, hc]

theorem pySplit_cons_neg {sep c : Char} (rest : List Char) (hc : (c == sep) = false)
    {h : List Char} {t : List (List Char)} (hrest : pySplit sep rest = h :: t) :
    pySplit sep (c :: rest) = (c :: h) :: t := by
  simp [pySplit, hc, hrest]

theorem pySplit_head_tail (sep : Char) (l : List Char) :
    ∃ h t, pySplit sep l = h :: t := by
  cases hx : pySplit sep l with
  | nil => exact absurd hx (pySplit_ne_nil sep l)
  | cons a t => exact ⟨a, t, rfl⟩

theorem pySplit_append (sep : Char) :
    ∀ (x y : List Char), pySplit sep (x ++ sep :: y) = pySplit sep x ++ pySplit sep y
  | [], y => by simp [pySplit]
  | c :: x', y => by
      have ih := pySplit_append sep x' y
      rcases Bool.eq_false_or_eq_true (c == sep) with hc | hc
      · rw [show (c :: x') ++ sep :: y = c :: (x' ++ sep :: y) from rfl,
          pySplit_cons_pos _ hc, pySplit_cons_pos _ hc, ih]
        rfl
      · obtain ⟨h, t, hrest⟩ := pySplit_head_tail sep x'
        rw [show (c :: x') ++ sep :: y = c :: (x' ++ sep :: y) from rfl]
        rw [pySplit_cons_neg _ hc (show pySplit sep (x' ++ sep :: y)
          = h :: (t ++ pySplit sep y) by rw [ih, hrest]; rfl)]
        rw [pySplit_cons_neg _ hc hrest]
        rfl

theorem pySplit_mem_no_sep (sep : Char) :
    ∀ (l : List Char), ∀ x ∈ pySplit sep l, sep ∉ x
  | [], x, hx => by
      simp [pySplit] at hx
      simp [hx]
  | c :: rest, x, hx => by
      rcases Bool.eq_false_or_eq_true (c == sep) with hc | hc
      · rw [pySplit_cons_pos _ hc] at hx
        rcases List.mem_cons.mp hx with h1 | h1
        · simp [h1]
        · exact pySplit_mem_no_sep sep rest x h1
      · obtain ⟨h, t, hrest⟩ := pySplit_head_tail sep rest
        rw [pySplit_cons_neg _ hc hrest] at hx
        rcases List.mem_cons.mp hx with h1 | h1
        · subst h1
          intro hm
          rcases List.mem_cons.mp hm with h2 | h2
          · rw [h2, beq_self_eq_true] at hc
            exact absurd hc (by simp)
          · exact pySplit_mem_no_sep sep rest h
              (hrest ▸ List.mem_cons_self h t) h2
        · exact pySplit_mem_no_sep sep rest x
            (hrest ▸ List.mem_cons_of_mem h h1)

/-- Splitting a newline-terminated line stream yields the concatenation
    of each line's own split pieces, plus a final empty piece. -/
theorem pySplit_lineStream (sep : Char) :
    ∀ lines : List (List Char),
      pySplit sep (lines.flatMap (fun l => l ++ [sep]))
        = lines.flatMap (fun l => pySplit sep l) ++ [[]]
  | [] => by simp [pySplit]
  | l :: rest => by
      have : l ++ [sep] ++ rest.flatMap (fun l => l ++ [sep])
          = l ++ sep :: rest.flatMap (fun l => l ++ [sep]) := by simp
      rw [List.flatMap_cons, this, pySplit_append, pySplit_lineStream sep rest,
        List.flatMap_cons, List.append_assoc]

/-- Stripping whitespace around a core that starts and ends with
    non-whitespace characters leaves exactly the core. -/
theorem pyStripL_sandwich {a b : List Char} {c d : Char} (mid : List Char)
    (ha : ∀ x ∈ a, isPySpace x = true) (hb : ∀ x ∈ b, isPySpace x = true)
    (hc : ¬ isPySpace c = true) (hd2 : ¬ isPySpace d = true) :
    pyStripL (a ++ (c :: (mid ++ [d])) ++ b) = c :: (mid ++ [d]) := by
  unfold pyStripL
  rw [List.append_assoc,
    show (c :: (mid ++ [d])) ++ b = c :: (mid ++ [d] ++ b) from by simp]
  rw [dropWhile_append_of_all _ ha, dropWhile_cons_of_neg _ hc]
  rw [show (c :: (mid ++ [d] ++ b)).reverse
      = b.reverse ++ (d :: (mid.reverse ++ [c])) by simp]
  rw [dropWhile_append_of_all _ (fun x hx => hb x (List.mem_reverse.mp hx)),
    dropWhile_cons_of_neg _ hd2]
  simp

theorem joinSep_ends (sep : Char) :
    ∀ (xs : List (List Char)) (y : List Char),
      ∃ pre, joinSep sep (xs ++ [y]) = pre ++ y
  | [], y => ⟨[], by simp [joinSep]⟩
  | x :: xs', y => by
      obtain ⟨pre, hpre⟩ := joinSep_ends sep xs' y
      refine ⟨x ++ sep :: pre, ?_⟩
      have hne : xs' ++ [y] ≠ [] := by simp
      cases h : xs' ++ [y] with
      | nil => exact absurd h hne
      | cons a t =>
        show joinSep sep (x :: (xs' ++ [y])) = x ++ sep :: pre ++ y
        rw [h]
        show x ++ sep :: joinSep sep (a :: t) = x ++ sep :: pre ++ y
        rw [← h, hpre]
        simp

/-- The split pieces of the full `toprettyxml` character stream. -/
def piecesOf (rs : List Rec) : List (List Char) :=
  (declLine :: bodyLines rs).flatMap (fun l => pySplit '\n' l) ++ [[]]

/-- The pieces surviving the source's line filter. -/
def keptOf (rs : List Rec) : List (List Char) :=
  (piecesOf rs).filter lineKeep

theorem generate_recJson (rs : List Rec) (h : recsXmlOk rs = true) :
    generate_aixm_xml (rs.map recJson)
      = .ok (String.mk (pyStripL (joinSep '\n' (keptOf (rs.map recNorm))))) := by
  unfold generate_aixm_xml
  simp only [buildIntervals_recJson]
  rw [if_pos (textsOk_root rs), if_pos (xmlClean_root h)]
  simp only [crNormElem, crNormList_intervals, prettyLinesE_root]
  unfold prettyStream keptOf piecesOf
  rw [pySplit_lineStream]

/-- A value with an XML-invalid character makes the rendering fail with
    the parser's `ExpatError`, re-raised unchanged. -/
theorem generate_expatError (rs : List Rec) (h : recsXmlOk rs = false) :
    generate_aixm_xml (rs.map recJson) = .error .expatError := by
  unfold generate_aixm_xml
  have hfalse : xmlCleanE (.node "PropertiesWithSchedule"
      (rs.map (fun r => buildInterval (recFields r)))) = false := by
    simp only [xmlCleanE]
    exact h
  simp only [buildIntervals_recJson]
  rw [if_pos (textsOk_root rs), if_neg (fun hc => Bool.noConfusion (hfalse ▸ hc))]

theorem lineKeep_iff (l : List Char) :
    lineKeep l = true ↔ pyStripL l ≠ [] ∧ startsWithL "<?xml".data l = false := by
  unfold lineKeep
  cases h1 : pyStripL l == [] <;> cases h2 : startsWithL "<?xml".data l <;>
    simp_all

theorem keptOf_eq (rs : List Rec) :
    keptOf rs = ((bodyLines rs).flatMap (fun l => pySplit '\n' l)).filter lineKeep := by
  unfold keptOf piecesOf
  rw [List.flatMap_cons, List.filter_append, List.filter_append]
  rw [show pySplit '\n' declLine = [declLine] from by decide]
  rw [show List.filter lineKeep [declLine] = [] from by decide,
    show List.filter lineKeep [([] : List Char)] = [] from by decide]
  simp

/-- The root element's opening line. -/
def rootOpenL : List Char := "<PropertiesWithSchedule>".data

/-- The root element's closing line. -/
def rootCloseL : List Char := "</PropertiesWithSchedule>".data

theorem keptOf_cons (r : Rec) (rest : List Rec) :
    keptOf (r :: rest)
      = rootOpenL
          :: ((((r :: rest).flatMap tsLines).flatMap
                (fun l => pySplit '\n' l)).filter lineKeep
          ++ [rootCloseL]) := by
  rw [keptOf_eq]
  have h1 : pySplit '\n' rootOpenL = [rootOpenL] := by decide
  have h2 : pySplit '\n' rootCloseL = [rootCloseL] := by decide
  have h3 : lineKeep rootOpenL = true := by decide
  have h4 : lineKeep rootCloseL = true := by decide
  show ((rootOpenL :: ((r :: rest).flatMap tsLines ++ [rootCloseL])).flatMap
        (fun l => pySplit '\n' l)).filter lineKeep = _
  simp [List.flatMap_cons, List.flatMap_append, h1, h2, List.filter_append,
    List.filter_cons, h3, h4]

/-- The final stripped, newline-joined output for a record list. -/
def renderedOf (rs : List Rec) : String := String.mk (joinSep '\n' (keptOf rs))

theorem stripJoin_keptOf (rs : List Rec) :
    pyStripL (joinSep '\n' (keptOf rs)) = joinSep '\n' (keptOf rs) := by
  cases rs with
  | nil =>
    rw [show keptOf [] = ["<PropertiesWithSchedule/>".data] from by decide]
    decide
  | cons r rest =>
    rw [keptOf_cons]
    set K := (((r :: rest).flatMap tsLines).flatMap
      (fun l => pySplit '\n' l)).filter lineKeep with hK
    obtain ⟨pre, hpre⟩ := joinSep_ends '\n' K rootCloseL
    have hne : K ++ [rootCloseL] ≠ [] := by simp
    have hjoin : joinSep '\n' (rootOpenL :: (K ++ [rootCloseL]))
        = rootOpenL ++ '\n' :: (pre ++ rootCloseL) := by
      obtain ⟨a, t, hat⟩ : ∃ a t, K ++ [rootCloseL] = a :: t := by
        cases h : K ++ [rootCloseL] with
        | nil => exact absurd h hne
        | cons a t => exact ⟨a, t, rfl⟩
      rw [hat]
      show rootOpenL ++ '\n' :: joinSep '\n' (a :: t) = _
      rw [← hat, hpre]
    rw [hjoin]
    rw [show rootOpenL ++ '\n' :: (pre ++ rootCloseL)
      = '<' :: (("PropertiesWithSchedule>".data ++ '\n'
          :: (pre ++ "</PropertiesWithSchedule".data)) ++ ['>']) from by
        simp [rootOpenL, rootCloseL]]
    exact pyStripL_of_clean_ends _ (by decide) (by decide)

theorem generate_renderedOf (rs : List Rec) (h : recsXmlOk rs = true) :
    generate_aixm_xml (rs.map recJson) = .ok (renderedOf (rs.map recNorm)) := by
  rw [generate_recJson rs h, stripJoin_keptOf]
  rfl

theorem keptOf_ne_nil (rs : List Rec) : keptOf rs ≠ [] := by
  cases rs with
  | nil => decide
  | cons r rest => rw [keptOf_cons]; simp

theorem keptOf_no_newline (rs : List Rec) : ∀ x ∈ keptOf rs, '\n' ∉ x := by
  intro x hx
  have hx2 : x ∈ piecesOf rs := List.mem_of_mem_filter hx
  unfold piecesOf at hx2
  rcases List.mem_append.mp hx2 with h | h
  · obtain ⟨l, _, hl2⟩ := List.mem_flatMap.mp h
    exact pySplit_mem_no_sep '\n' l x hl2
  · rw [List.mem_singleton.mp h]
    simp

/-- Splitting the rendered output on newlines recovers exactly the kept
    pieces. -/
theorem renderedOf_split (rs : List Rec) :
    pySplit '\n' (renderedOf rs).data = keptOf rs := by
  show pySplit '\n' (joinSep '\n' (keptOf rs)) = keptOf rs
  exact pySplit_joinSep _ (keptOf_ne_nil rs) (keptOf_no_newline rs)

/-! ### Shape of the kept lines -/

theorem escChar_of_plain {c : Char} (h1 : c ≠ '&') (h2 : c ≠ '<')
    (h3 : c ≠ '"') (h4 : c ≠ '>') : escChar c = [c] := by
  unfold escChar
  rw [if_neg h1, if_neg h2, if_neg h3, if_neg h4]

theorem escText_id {v : List Char}
    (h : ∀ c ∈ v, c ≠ '&' ∧ c ≠ '<' ∧ c ≠ '"' ∧ c ≠ '>') : escText v = v := by
  induction v with
  | nil => rfl
  | cons c rest ih =>
    obtain ⟨h1, h2, h3, h4⟩ := h c (List.mem_cons_self _ _)
    unfold escText
    rw [List.flatMap_cons, escChar_of_plain h1 h2 h3 h4]
    show [c] ++ escText rest = c :: rest
    rw [ih (fun x hx => h x (List.mem_cons_of_mem _ hx))]
    rfl

theorem escText_no_newline {v : List Char} (h : '\n' ∉ v) : '\n' ∉ escText v := by
  intro hmem
  obtain ⟨c, hc, hc2⟩ := List.mem_flatMap.mp hmem
  by_cases h1 : c = '&'
  · subst h1; exact absurd hc2 (by decide)
  · by_cases h2 : c = '<'
    · subst h2; exact absurd hc2 (by decide)
    · by_cases h3 : c = '"'
      · subst h3; exact absurd hc2 (by decide)
      · by_cases h4 : c = '>'
        · subst h4; exact absurd hc2 (by decide)
        · rw [escChar_of_plain h1 h2 h3 h4] at hc2
          rw [List.mem_singleton.mp hc2] at h
          exact h hc

theorem leafLine_shape (tag v : String) :
    ∃ s, leafLine 3 tag v = indentL 3 ++ '<' :: (s ++ ['>']) := by
  unfold leafLine
  by_cases h : v.data = []
  · refine ⟨tag.data ++ ['/'], ?_⟩
    rw [if_pos h]
    simp
  · refine ⟨tag.data ++ '>' :: escText v.data ++ "</".data ++ tag.data, ?_⟩
    rw [if_neg h]
    simp

theorem tsLines_shape (r : Rec) :
    ∀ l ∈ tsLines r, ∃ d s, 1 ≤ d ∧ d ≤ 3 ∧ l = indentL d ++ '<' :: (s ++ ['>']) := by
  intro l hl
  have shape3 : ∀ tag v : String, ∃ d s, 1 ≤ d ∧ d ≤ 3
      ∧ leafLine 3 tag v = indentL d ++ '<' :: (s ++ ['>']) := by
    intro tag v
    obtain ⟨s, hs⟩ := leafLine_shape tag v
    exact ⟨3, s, by omega, by omega, hs⟩
  unfold tsLines at hl
  simp only [List.mem_cons, List.not_mem_nil, or_false] at hl
  rcases hl with h | h | h | h | h | h | h | h | h | h
  · exact ⟨1, "timeInterval".data, by omega, by omega, by rw [h]; decide⟩
  · exact ⟨2, "Timesheet".data, by omega, by omega, by rw [h]; decide⟩
  · exact h ▸ shape3 _ _
  · exact h ▸ shape3 _ _
  · exact h ▸ shape3 _ _
  · exact h ▸ shape3 _ _
  · exact h ▸ shape3 _ _
  · exact h ▸ shape3 _ _
  · exact ⟨2, "/Timesheet".data, by omega, by omega, by rw [h]; decide⟩
  · exact ⟨1, "/timeInterval".data, by omega, by omega, by rw [h]; decide⟩

theorem pyStripL_shape_ne_nil {l s : List Char} {d : Nat}
    (hl : l = indentL d ++ '<' :: (s ++ ['>'])) : pyStripL l ≠ [] := by
  have hall : ∀ x ∈ indentL d, isPySpace x = true := by
    intro x hx
    rw [List.eq_of_mem_replicate hx]
    decide
  have : pyStripL (indentL d ++ ('<' :: (s ++ ['>'])) ++ []) = '<' :: (s ++ ['>']) :=
    pyStripL_sandwich s hall (by simp) (by decide) (by decide)
  rw [hl, show indentL d ++ '<' :: (s ++ ['>'])
    = indentL d ++ ('<' :: (s ++ ['>'])) ++ [] from by simp, this]
  simp

theorem lineKeep_of_shape {l s : List Char} {d : Nat}
    (hl : l = indentL d ++ '<' :: (s ++ ['>'])) (hd : 1 ≤ d) :
    lineKeep l = true := by
  rw [lineKeep_iff]
  refine ⟨pyStripL_shape_ne_nil hl, ?_⟩
  obtain ⟨d', rfl⟩ : ∃ d', d = d' + 1 := ⟨d - 1, by omega⟩
  have hrep : indentL (d' + 1) = ' ' :: List.replicate (2 * d' + 1) ' ' := by
    unfold indentL
    rw [show 2 * (d' + 1) = (2 * d' + 1) + 1 by ring, List.replicate_succ]
  rw [hl, hrep]
  have hco : ('<' == ' ') = false := by decide
  simp [startsWithL, hco]

theorem startsWithL_xml_cons_false (t : List Char) :
    startsWithL "<?xml".data ('<' :: 'P' :: t) = false := by
  have h : ('?' == 'P') = false := by decide
  show startsWithL ('<' :: '?' :: "xml".data) ('<' :: 'P' :: t) = false
  simp [startsWithL, h]

theorem joinSep_cons_ne (sep : Char) (x : List Char) {ls : List (List Char)}
    (h : ls ≠ []) : joinSep sep (x :: ls) = x ++ sep :: joinSep sep ls := by
  cases ls with
  | nil => exact absurd rfl h
  | cons a t => rfl

/-- The rendered output never begins with an XML declaration. -/
theorem renderedOf_no_decl (rs : List Rec) :
    startsWithL "<?xml".data (renderedOf rs).data = false := by
  cases rs with
  | nil =>
    rw [show renderedOf [] = String.mk "<PropertiesWithSchedule/>".data from by decide]
    decide
  | cons r rest =>
    show startsWithL "<?xml".data (joinSep '\n' (keptOf (r :: rest))) = false
    rw [keptOf_cons, joinSep_cons_ne _ _ (by simp)]
    rw [show rootOpenL = '<' :: 'P' :: "ropertiesWithSchedule>".data from by decide]
    rw [show ('<' :: 'P' :: "ropertiesWithSchedule>".data)
          ++ '\n' :: joinSep '\n' ((((r :: rest).flatMap tsLines).flatMap
              (fun l => pySplit '\n' l)).filter lineKeep ++ [rootCloseL])
        = '<' :: 'P' :: ("ropertiesWithSchedule>".data
          ++ '\n' :: joinSep '\n' ((((r :: rest).flatMap tsLines).flatMap
              (fun l => pySplit '\n' l)).filter lineKeep ++ [rootCloseL]))
      from by simp]
    exact startsWithL_xml_cons_false _

/-- No kept line of the rendered output is blank. -/
theorem renderedOf_no_blank (rs : List Rec) :
    ∀ l ∈ pySplit '\n' (renderedOf rs).data, pyStripL l ≠ [] := by
  intro l hl
  rw [renderedOf_split] at hl
  exact ((lineKeep_iff l).mp (List.of_mem_filter hl)).1

/-! ### The rendered lines when no value contains a newline -/

theorem rlookup_mem {k v : String} :
    ∀ {r : Rec}, rlookup k r = some v → (k, v) ∈ r
  | [], h => by simp [rlookup] at h
  | (k', v') :: rest, h => by
      unfold rlookup at h
      cases hr : rlookup k rest with
      | some w =>
        rw [hr] at h
        cases h
        exact List.mem_cons_of_mem _ (rlookup_mem hr)
      | none =>
        rw [hr] at h
        by_cases hk : k' = k
        · rw [if_pos hk] at h
          cases h
          subst hk
          exact List.mem_cons_self _ _
        · rw [if_neg hk] at h
          exact absurd h (by simp)

theorem rget_no_newline {r : Rec} (h : ∀ kv ∈ r, '\n' ∉ (kv.2 : String).data)
    {k d : String} (hd : '\n' ∉ d.data) : '\n' ∉ (rget r k d).data := by
  unfold rget
  cases hl : rlookup k r with
  | none => simpa using hd
  | some v => simpa using h (k, v) (rlookup_mem hl)

theorem leafLine_no_newline {tag v : String} (ht : '\n' ∉ tag.data)
    (hv : '\n' ∉ v.data) : '\n' ∉ leafLine 3 tag v := by
  have hind : '\n' ∉ indentL 3 := by decide
  unfold leafLine
  by_cases h : v.data = []
  · rw [if_pos h]
    intro hm
    rcases List.mem_append.mp hm with hm1 | hm2
    · rcases List.mem_append.mp hm1 with hm3 | hm4
      · exact hind hm3
      · rcases List.mem_cons.mp hm4 with h5 | h5
        · exact absurd h5 (by decide)
        · exact ht h5
    · exact absurd hm2 (by decide)
  · rw [if_neg h]
    intro hm
    rcases List.mem_append.mp hm with hm1 | hm2
    · rcases List.mem_append.mp hm1 with hm3 | hm4
      · rcases List.mem_append.mp hm3 with hm5 | hm6
        · rcases List.mem_append.mp hm5 with hm7 | hm8
          · rcases List.mem_append.mp hm7 with hm9 | hm10
            · exact hind hm9
            · rcases List.mem_cons.mp hm10 with h5 | h5
              · exact absurd h5 (by decide)
              · exact ht h5
          · rcases List.mem_cons.mp hm8 with h5 | h5
            · exact absurd h5 (by decide)
            · exact escText_no_newline hv h5
        · exact absurd hm6 (by decide)
      · exact ht hm4
    · exact absurd hm2 (by decide)

theorem tsLines_no_newline {r : Rec} (h : ∀ kv ∈ r, '\n' ∉ (kv.2 : String).data) :
    ∀ l ∈ tsLines r, '\n' ∉ l := by
  intro l hl
  have hleaf : ∀ tag v : String, '\n' ∉ tag.data → '\n' ∉ v.data
      → l = leafLine 3 tag v → '\n' ∉ l := by
    intro tag v ht hv he
    rw [he]
    exact leafLine_no_newline ht hv
  unfold tsLines at hl
  simp only [List.mem_cons, List.not_mem_nil, or_false] at hl
  rcases hl with h1 | h1 | h1 | h1 | h1 | h1 | h1 | h1 | h1 | h1
  · rw [h1]; decide
  · rw [h1]; decide
  · exact hleaf _ _ (by decide) (rget_no_newline h (by decide)) h1
  · exact hleaf _ _ (by decide) (rget_no_newline h (by decide)) h1
  · exact hleaf _ _ (by decide) (rget_no_newline h (by decide)) h1
  · exact hleaf _ _ (by decide) (rget_no_newline h (by decide)) h1
  · exact hleaf _ _ (by decide) (rget_no_newline h (by decide)) h1
  · exact hleaf _ _ (by decide) (rget_no_newline h (by decide)) h1
  · rw [h1]; decide
  · rw [h1]; decide

theorem flatMap_pySplit_clean {ls : List (List Char)} (h : ∀ l ∈ ls, '\n' ∉ l) :
    ls.flatMap (fun l => pySplit '\n' l) = ls := by
  induction ls with
  | nil => rfl
  | cons l rest ih =>
    rw [List.flatMap_cons, pySplit_no_sep (h l (List.mem_cons_self _ _)),
      ih (fun x hx => h x (List.mem_cons_of_mem _ hx))]
    rfl

theorem filter_lineKeep_tsLines (rs : List Rec) :
    (rs.flatMap tsLines).filter lineKeep = rs.flatMap tsLines := by
  rw [List.filter_eq_self]
  intro l hl
  obtain ⟨r, _, hl2⟩ := List.mem_flatMap.mp hl
  obtain ⟨d, s, hd1, _, hshape⟩ := tsLines_shape r l hl2
  exact lineKeep_of_shape hshape hd1

/-- With newline-free values, the kept lines are exactly the body lines. -/
theorem keptOf_clean (r : Rec) (rest : List Rec)
    (h : ∀ r' ∈ r :: rest, ∀ kv ∈ r', '\n' ∉ (kv.2 : String).data) :
    keptOf (r :: rest) = rootOpenL :: ((r :: rest).flatMap tsLines ++ [rootCloseL]) := by
  rw [keptOf_cons]
  rw [flatMap_pySplit_clean (by
    intro l hl
    obtain ⟨r', hr', hl2⟩ := List.mem_flatMap.mp hl
    exact tsLines_no_newline (h r' hr') l hl2)]
  rw [filter_lineKeep_tsLines]

/-! ### Decomposition of a regex match into comma-separated segments -/

/-- A list of four digit (Unicode Nd) characters. -/
def FourDigits (l : List Char) : Prop :=
  ∃ a b c d, l = [a, b, c, d]
    ∧ isPyDigit a = true ∧ isPyDigit b = true ∧ isPyDigit c = true
    ∧ isPyDigit d = true

/-- Shape of one comma-free segment of a regex-matched text: optional
    whitespace, a day token, optional whitespace, a colon, optional
    whitespace, the two four-digit groups, optional whitespace. -/
def ClauseSeg (seg : List Char) (c : RawClause) : Prop :=
  ∃ ws1 tok ws2 ws3 ws4,
    (∀ x ∈ ws1, isPySpace x = true) ∧ tok ∈ dayTokens ∧
    (∀ x ∈ ws2, isPySpace x = true) ∧ (∀ x ∈ ws3, isPySpace x = true) ∧
    (∀ x ∈ ws4, isPySpace x = true) ∧
    FourDigits c.st ∧ FourDigits c.et ∧
    seg = ws1 ++ (tok ++ (ws2 ++ ':' :: (ws3 ++ (c.st ++ '-' :: (c.et ++ ws4)))))

theorem startsWithL_decomp :
    ∀ {p l : List Char}, startsWithL p l = true → l = p ++ l.drop p.length
  | [], l, _ => by simp
  | a :: ps, [], h => by simp [startsWithL] at h
  | a :: ps, b :: ls, h => by
      unfold startsWithL at h
      obtain ⟨h1, h2⟩ := Bool.and_eq_true_iff.mp h
      have hab : a = b := beq_iff_eq.mp h1
      subst hab
      rw [List.cons_append, List.length_cons, List.drop_succ_cons]
      rw [← startsWithL_decomp h2]

theorem matchTokenAux_decomp :
    ∀ {ts : List (List Char)} {l tok r : List Char},
      matchTokenAux ts l = some (tok, r) → tok ∈ ts ∧ l = tok ++ r
  | [], l, tok, r, h => by simp [matchTokenAux] at h
  | t :: ts, l, tok, r, h => by
      unfold matchTokenAux at h
      by_cases hs : startsWithL t l = true
      · rw [if_pos hs] at h
        cases h
        exact ⟨List.mem_cons_self _ _, startsWithL_decomp hs⟩
      · rw [if_neg hs] at h
        obtain ⟨hm, he⟩ := matchTokenAux_decomp h
        exact ⟨List.mem_cons_of_mem _ hm, he⟩

theorem parse4d_decomp {l ds r : List Char} (h : parse4d l = some (ds, r)) :
    FourDigits ds ∧ l = ds ++ r := by
  unfold parse4d at h
  split at h
  · rename_i a b c d l'
    by_cases hd : (isPyDigit a && isPyDigit b && isPyDigit c && isPyDigit d) = true
    · rw [if_pos hd] at h
      simp only [Option.some_inj, Prod.mk.injEq] at h
      obtain ⟨h1, h2⟩ := h
      subst h1
      subst h2
      simp only [Bool.and_eq_true] at hd
      exact ⟨⟨a, b, c, d, rfl, hd.1.1.1, hd.1.1.2, hd.1.2, hd.2⟩, rfl⟩
    · rw [if_neg hd] at h
      exact absurd h (by simp)
  · exact absurd h (by simp)

/-- The whitespace-prefix decomposition of `dropWhile`. -/
theorem dropWhile_decomp (p : Char → Bool) (l : List Char) :
    ∃ ws, (∀ x ∈ ws, p x = true) ∧ l = ws ++ l.dropWhile p :=
  ⟨l.takeWhile p, fun x hx => List.mem_takeWhile_imp hx,
    (List.takeWhile_append_dropWhile p l).symm⟩

theorem parseClause_decomp {l : List Char} {c : RawClause} {r : List Char}
    (h : parseClause l = some (c, r)) :
    ∃ tok ws2 ws3, tok ∈ dayTokens ∧
      (∀ x ∈ ws2, isPySpace x = true) ∧ (∀ x ∈ ws3, isPySpace x = true) ∧
      FourDigits c.st ∧ FourDigits c.et ∧
      l = tok ++ (ws2 ++ ':' :: (ws3 ++ (c.st ++ '-' :: (c.et ++ r)))) := by
  unfold parseClause at h
  split at h
  · exact absurd h (by simp)
  · rename_i pr tok0 r0 heq
    split at h
    · rename_i r2 heq2
      split at h
      · rename_i pr1 st r4 heq3
        split at h
        · rename_i r5 heq4
          split at h
          · rename_i pr2 et r6 heq5
            simp only [Option.some_inj, Prod.mk.injEq] at h
            obtain ⟨hcv, hrv⟩ := h
            subst hrv
            obtain ⟨htokmem, hl0⟩ := matchTokenAux_decomp heq
            obtain ⟨ws2, hws2, hr0⟩ := dropWhile_decomp isPySpace r0
            rw [heq2] at hr0
            obtain ⟨ws3, hws3, hr2⟩ := dropWhile_decomp isPySpace r2
            obtain ⟨hst4, hr3⟩ := parse4d_decomp heq3
            obtain ⟨het4, hr5⟩ := parse4d_decomp heq5
            refine ⟨tok0, ws2, ws3, htokmem, hws2, hws3, ?_, ?_, ?_⟩
            · rw [← hcv]
              exact hst4
            · rw [← hcv]
              exact het4
            · rw [hl0, hr0, hr2, hr3, hr5, ← hcv]
          · exact absurd h (by simp)
        · exact absurd h (by simp)
      · exact absurd h (by simp)
    · exact absurd h (by simp)

/-- Facts about the day tokens that only need evaluation. -/
theorem dayTokens_no_comma : ∀ tok ∈ dayTokens, ',' ∉ tok := by decide

theorem dayTokens_no_colon : ∀ tok ∈ dayTokens, ':' ∉ tok := by decide

theorem dayTokens_head_shape :
    ∀ tok ∈ dayTokens, tok ≠ [] ∧ isPySpace (tok.headD ' ') = false := by decide

/-- No code point of any Nd run is Python whitespace: the two regex
    classes `\d` and `\s` are disjoint. -/
theorem ndBases_space_free :
    ∀ b ∈ ndBases, ∀ k ∈ List.range 10, pySpaceNat (b + k) = false := by decide

theorem digit_not_pySpace {c : Char} (h : isPyDigit c = true) :
    isPySpace c = false := by
  unfold isPyDigit at h
  rw [List.any_eq_true] at h
  obtain ⟨b, hb, hb2⟩ := h
  rw [Bool.and_eq_true, decide_eq_true_eq, decide_eq_true_eq] at hb2
  have hk : c.toNat - b ∈ List.range 10 := by
    rw [List.mem_range]
    omega
  have hfree := ndBases_space_free b hb (c.toNat - b) hk
  rw [show b + (c.toNat - b) = c.toNat from by omega] at hfree
  unfold isPySpace
  exact hfree

theorem digit_ne_char {c x : Char} (h : isPyDigit c = true)
    (hx : isPyDigit x = false) : c ≠ x := by
  intro he
  rw [he, hx] at h
  exact Bool.noConfusion h

theorem fourDigits_not_mem {dl : List Char} (hfd : FourDigits dl) {x : Char}
    (hx : isPyDigit x = false) : x ∉ dl := by
  obtain ⟨a, b, c', d, rfl, ha, hb, hc', hd⟩ := hfd
  intro hmem
  simp only [List.mem_cons, List.not_mem_nil, or_false] at hmem
  rcases hmem with h | h | h | h <;>
    (rw [h] at hx; simp_all)

theorem ws_not_mem {ws : List Char} (hall : ∀ x ∈ ws, isPySpace x = true)
    {x : Char} (hx : isPySpace x = false) : x ∉ ws := by
  intro hmem
  rw [hall x hmem] at hx
  exact Bool.noConfusion hx

theorem ClauseSeg_no_comma {seg : List Char} {c : RawClause}
    (h : ClauseSeg seg c) : ',' ∉ seg := by
  obtain ⟨ws1, tok, ws2, ws3, ws4, hw1, htok, hw2, hw3, hw4, hst, het, heq⟩ := h
  intro hm
  rw [heq] at hm
  rcases List.mem_append.mp hm with h1 | h2
  · exact ws_not_mem hw1 (by decide) h1
  rcases List.mem_append.mp h2 with h3 | h4
  · exact dayTokens_no_comma tok htok h3
  rcases List.mem_append.mp h4 with h5 | h6
  · exact ws_not_mem hw2 (by decide) h5
  rcases List.mem_cons.mp h6 with h7 | h8
  · exact absurd h7 (by decide)
  rcases List.mem_append.mp h8 with h9 | h10
  · exact ws_not_mem hw3 (by decide) h9
  rcases List.mem_append.mp h10 with h11 | h12
  · exact fourDigits_not_mem hst (by decide) h11
  rcases List.mem_cons.mp h12 with h13 | h14
  · exact absurd h13 (by decide)
  rcases List.mem_append.mp h14 with h15 | h16
  · exact fourDigits_not_mem het (by decide) h15
  · exact ws_not_mem hw4 (by decide) h16

/-- The text the `(?:,\s*clause\s*)*` tail matches: a comma before each
    further segment. -/
def commaChain (segs : List (List Char)) : List Char :=
  segs.flatMap (fun s => ',' :: s)

theorem append_commaChain (a : List Char) :
    ∀ segs : List (List Char), a ++ commaChain segs = joinSep ',' (a :: segs)
  | [] => by simp [commaChain, joinSep]
  | s :: rest => by
      show a ++ (',' :: s ++ commaChain rest) = joinSep ',' (a :: s :: rest)
      rw [show joinSep ',' (a :: s :: rest) = a ++ ',' :: joinSep ',' (s :: rest)
        from rfl]
      rw [← append_commaChain s rest]
      simp

theorem parseClausesAux_decomp :
    ∀ {fuel : Nat} {m : List Char} {cs : List RawClause},
      parseClausesAux fuel m = some cs →
      ∃ segs, List.Forall₂ ClauseSeg segs cs ∧ m = commaChain segs := by
  intro fuel
  induction fuel with
  | zero =>
    intro m cs h
    cases m with
    | nil =>
      simp only [parseClausesAux, Option.some_inj] at h
      exact ⟨[], h ▸ List.Forall₂.nil, rfl⟩
    | cons c r => exact absurd h (by simp [parseClausesAux])
  | succ fuel ih =>
    intro m cs h
    cases m with
    | nil =>
      simp only [parseClausesAux, Option.some_inj] at h
      exact ⟨[], h ▸ List.Forall₂.nil, rfl⟩
    | cons c0 r =>
      unfold parseClausesAux at h
      split at h
      · exact absurd h (by simp)
      · rename_i f heqf
        have hf : f = fuel := by omega
        subst hf
        by_cases hc0 : c0 = ','
        · rw [if_pos hc0] at h
          subst hc0
          split at h
          · rename_i pr c1 r2 heqc
            split at h
            · rename_i cs' heqa
              simp only [Option.some_inj] at h
              subst h
              obtain ⟨wsa, hwsa, hra⟩ := dropWhile_decomp isPySpace r
              obtain ⟨tok, ws2, ws3, htok, hws2, hws3, hst, het, hdec⟩ :=
                parseClause_decomp heqc
              obtain ⟨wsb, hwsb, hrb⟩ := dropWhile_decomp isPySpace r2
              obtain ⟨segs', hf2, hchain⟩ := ih heqa
              refine ⟨(wsa ++ (tok ++ (ws2 ++ ':' :: (ws3
                  ++ (c1.st ++ '-' :: (c1.et ++ wsb)))))) :: segs', ?_, ?_⟩
              · exact List.Forall₂.cons
                  ⟨wsa, tok, ws2, ws3, wsb, hwsa, htok, hws2, hws3, hwsb,
                    hst, het, rfl⟩ hf2
              · show ',' :: r = _
                rw [show commaChain ((wsa ++ (tok ++ (ws2 ++ ':' :: (ws3
                    ++ (c1.st ++ '-' :: (c1.et ++ wsb)))))) :: segs')
                  = ',' :: ((wsa ++ (tok ++ (ws2 ++ ':' :: (ws3
                    ++ (c1.st ++ '-' :: (c1.et ++ wsb)))))) ++ commaChain segs')
                  from rfl]
                rw [hra, hdec, hrb, hchain]
                simp
            · exact absurd h (by simp)
          · exact absurd h (by simp)
        · rw [if_neg hc0] at h
          exact absurd h (by simp)

theorem regexMatchClauses_decomp {l : List Char} {cs : List RawClause}
    (h : regexMatchClauses l = some cs) :
    ∃ segs, List.Forall₂ ClauseSeg segs cs ∧ segs ≠ [] ∧ l = joinSep ',' segs := by
  unfold regexMatchClauses at h
  split at h
  · rename_i pr c1 r heqc
    split at h
    · rename_i cs' heqa
      simp only [Option.some_inj] at h
      subst h
      obtain ⟨wsa, hwsa, hla⟩ := dropWhile_decomp isPySpace l
      obtain ⟨tok, ws2, ws3, htok, hws2, hws3, hst, het, hdec⟩ :=
        parseClause_decomp heqc
      obtain ⟨wsb, hwsb, hrb⟩ := dropWhile_decomp isPySpace r
      obtain ⟨segs', hf2, hchain⟩ := parseClausesAux_decomp heqa
      refine ⟨(wsa ++ (tok ++ (ws2 ++ ':' :: (ws3
          ++ (c1.st ++ '-' :: (c1.et ++ wsb)))))) :: segs', ?_, by simp, ?_⟩
      · exact List.Forall₂.cons
          ⟨wsa, tok, ws2, ws3, wsb, hwsa, htok, hws2, hws3, hwsb,
            hst, het, rfl⟩ hf2
      · rw [← append_commaChain]
        rw [hla, hdec, hrb, hchain]
        simp
    · exact absurd h (by simp)
  · exact absurd h (by simp)

/-- The stripped text of a clause segment: token through the final digit,
    surrounding whitespace removed. -/
theorem pyStripL_clauseSeg {seg : List Char} {c : RawClause}
    (h : ClauseSeg seg c) :
    ∃ tok ws2 ws3, tok ∈ dayTokens ∧
      (∀ x ∈ ws2, isPySpace x = true) ∧ (∀ x ∈ ws3, isPySpace x = true) ∧
      pyStripL seg = tok ++ (ws2 ++ ':' :: (ws3 ++ (c.st ++ '-' :: c.et))) := by
  obtain ⟨ws1, tok, ws2, ws3, ws4, hw1, htok, hw2, hw3, hw4, hst, het, heq⟩ := h
  refine ⟨tok, ws2, ws3, htok, hw2, hw3, ?_⟩
  obtain ⟨hne, hhead⟩ := dayTokens_head_shape tok htok
  obtain ⟨tc, trest, rfl⟩ : ∃ tc trest, tok = tc :: trest := by
    cases tok with
    | nil => exact absurd rfl hne
    | cons a t => exact ⟨a, t, rfl⟩
  obtain ⟨e1, e2, e3, e4, hetv, _, _, _, he4⟩ := het
  rw [heq, hetv]
  rw [show ws1 ++ (tc :: trest ++ (ws2 ++ ':' :: (ws3
      ++ (c.st ++ '-' :: ([e1, e2, e3, e4] ++ ws4)))))
    = ws1 ++ (tc :: ((trest ++ (ws2 ++ ':' :: (ws3
        ++ (c.st ++ '-' :: [e1, e2, e3])))) ++ [e4])) ++ ws4 from by simp]
  rw [pyStripL_sandwich _ hw1 hw4
    (by simp only [List.headD] at hhead; rw [hhead]; exact Bool.noConfusion)
    (by rw [digit_not_pySpace he4]; exact Bool.noConfusion)]
  simp

theorem clauseLoopBody_of_splits {sched x y : List Char}
    (h : (pySplit ':' sched).map pyStripL = [x, y]) {st et : List Char}
    (h2 : (pySplit '-' y).map pyStripL = [st, et]) :
    clauseLoopBody sched = checkTimes st et := by
  unfold clauseLoopBody
  rw [h]
  show (match (pySplit '-' y).map pyStripL with
    | [st, et] => checkTimes st et
    | _ => false) = checkTimes st et
  rw [h2]

theorem clauseLoopBody_seg {seg : List Char} {c : RawClause}
    (h : ClauseSeg seg c) : clauseLoopBody (pyStripL seg) = rangeOk c := by
  have hst : FourDigits c.st := by
    obtain ⟨_, _, _, _, _, _, _, _, _, _, h1, _, _⟩ := h
    exact h1
  have het : FourDigits c.et := by
    obtain ⟨_, _, _, _, _, _, _, _, _, _, _, h1, _⟩ := h
    exact h1
  obtain ⟨tok, ws2, ws3, htok, hw2, hw3, hstrip⟩ := pyStripL_clauseSeg h
  obtain ⟨a, b, c3, d, hstv, ha, hb, hc3, hd⟩ := hst
  obtain ⟨e1, e2, e3, e4, hetv, he1, he2, he3, he4⟩ := het
  have hA_nocolon : ':' ∉ tok ++ ws2 := by
    intro hm
    rcases List.mem_append.mp hm with h1 | h2
    · exact dayTokens_no_colon tok htok h1
    · exact ws_not_mem hw2 (by decide) h2
  have hB_nocolon : ':' ∉ ws3 ++ (c.st ++ '-' :: c.et) := by
    intro hm
    rcases List.mem_append.mp hm with h1 | h2
    · exact ws_not_mem hw3 (by decide) h1
    rcases List.mem_append.mp h2 with h3 | h4
    · exact fourDigits_not_mem ⟨a, b, c3, d, hstv, ha, hb, hc3, hd⟩ (by decide) h3
    rcases List.mem_cons.mp h4 with h5 | h6
    · exact absurd h5 (by decide)
    · exact fourDigits_not_mem ⟨e1, e2, e3, e4, hetv, he1, he2, he3, he4⟩
        (by decide) h6
  have hB : pyStripL (ws3 ++ (c.st ++ '-' :: c.et)) = c.st ++ '-' :: c.et := by
    rw [hstv, hetv]
    rw [show ws3 ++ ([a, b, c3, d] ++ '-' :: [e1, e2, e3, e4])
      = ws3 ++ (a :: (([b, c3, d] ++ '-' :: [e1, e2, e3]) ++ [e4])) ++ []
      from by simp]
    rw [pyStripL_sandwich _ hw3 (by simp)
      (by rw [digit_not_pySpace ha]; exact Bool.noConfusion)
      (by rw [digit_not_pySpace he4]; exact Bool.noConfusion)]
    simp
  have hsplit1 : (pySplit ':' (pyStripL seg)).map pyStripL
      = [pyStripL (tok ++ ws2), c.st ++ '-' :: c.et] := by
    rw [hstrip]
    rw [show tok ++ (ws2 ++ ':' :: (ws3 ++ (c.st ++ '-' :: c.et)))
      = (tok ++ ws2) ++ ':' :: (ws3 ++ (c.st ++ '-' :: c.et)) from by simp]
    rw [pySplit_append_sep _ hA_nocolon, pySplit_no_sep hB_nocolon]
    rw [List.map_cons, List.map_cons, List.map_nil, hB]
  have hsplit2 : (pySplit '-' (c.st ++ '-' :: c.et)).map pyStripL
      = [c.st, c.et] := by
    rw [pySplit_append_sep _
        (fourDigits_not_mem ⟨a, b, c3, d, hstv, ha, hb, hc3, hd⟩ (by decide)),
      pySplit_no_sep
        (fourDigits_not_mem ⟨e1, e2, e3, e4, hetv, he1, he2, he3, he4⟩ (by decide))]
    rw [List.map_cons, List.map_cons, List.map_nil]
    rw [show pyStripL c.st = c.st from by
      rw [hstv]
      exact pyStripL_of_clean_ends [b, c3]
        (by rw [digit_not_pySpace ha]; exact Bool.noConfusion)
        (by rw [digit_not_pySpace hd]; exact Bool.noConfusion)]
    rw [show pyStripL c.et = c.et from by
      rw [hetv]
      exact pyStripL_of_clean_ends [e2, e3]
        (by rw [digit_not_pySpace he1]; exact Bool.noConfusion)
        (by rw [digit_not_pySpace he4]; exact Bool.noConfusion)]
  rw [clauseLoopBody_of_splits hsplit1 hsplit2]
  unfold checkTimes rangeOk
  rw [hstv, hetv]
  simp [ha, hb, hc3, hd, he1, he2, he3, he4]

/-- Over matched segments, the source's per-clause loop computes exactly
    the range admissibility of the matched digit groups. -/
theorem all_seg_iff {segs : List (List Char)} {cs : List RawClause}
    (h : List.Forall₂ ClauseSeg segs cs) :
    (segs.map pyStripL).all clauseLoopBody = cs.all rangeOk := by
  induction h with
  | nil => rfl
  | cons hseg htail ih =>
    rw [List.map_cons, List.all_cons, List.all_cons, clauseLoopBody_seg hseg, ih]

theorem forall₂_mem_left {segs : List (List Char)} {cs : List RawClause}
    (h : List.Forall₂ ClauseSeg segs cs) :
    ∀ s ∈ segs, ∃ c, ClauseSeg s c := by
  induction h with
  | nil => intro s hs; exact absurd hs (List.not_mem_nil s)
  | cons hseg htail ih =>
    intro s hs
    rcases List.mem_cons.mp hs with h1 | h1
    · exact ⟨_, h1 ▸ hseg⟩
    · exact ih s h1

theorem pyStripL_ne_nil_of_mem {l : List Char} {x : Char} (hx : x ∈ l)
    (hnw : isPySpace x = false) : pyStripL l ≠ [] := by
  intro h
  unfold pyStripL at h
  rw [List.reverse_eq_nil_iff] at h
  rw [List.dropWhile_eq_nil_iff] at h
  have hall : ∀ y ∈ l.dropWhile isPySpace, isPySpace y = true := by
    intro y hy
    exact h y (List.mem_reverse.mpr hy)
  have hx2 : x ∈ l.takeWhile isPySpace ++ l.dropWhile isPySpace := by
    rw [List.takeWhile_append_dropWhile]
    exact hx
  rcases List.mem_append.mp hx2 with h1 | h1
  · rw [List.mem_takeWhile_imp h1] at hnw
    exact Bool.noConfusion hnw
  · rw [hall x h1] at hnw
    exact Bool.noConfusion hnw

theorem mem_joinSep_head {x : Char} {seg0 : List Char}
    (hx : x ∈ seg0) (sep : Char) (rest : List (List Char)) :
    x ∈ joinSep sep (seg0 :: rest) := by
  cases rest with
  | nil => exact hx
  | cons a t =>
    show x ∈ seg0 ++ sep :: joinSep sep (a :: t)
    exact List.mem_append.mpr (Or.inl hx)

/-- Full characterisation of `validate_schedule_text`: it accepts exactly
    the texts the regex matches whose clauses all pass the hour/minute
    range check. -/
theorem validate_characterization (t : String) :
    validate_schedule_text t = true ↔
      ∃ cs, regexMatchClauses t.data = some cs ∧ cs.all rangeOk = true := by
  unfold validate_schedule_text
  constructor
  · intro h
    by_cases h1 : pyStripL t.data = []
    · rw [if_pos h1] at h
      exact absurd h (by simp)
    · rw [if_neg h1] at h
      cases hre : regexMatchClauses t.data with
      | none =>
        rw [hre] at h
        simp at h
      | some cs =>
        rw [hre] at h
        rw [if_pos (by simp)] at h
        refine ⟨cs, rfl, ?_⟩
        obtain ⟨segs, hf2, hne, hjoin⟩ := regexMatchClauses_decomp hre
        have hsplit : pySplit ',' t.data = segs := by
          rw [hjoin]
          exact pySplit_joinSep _ hne (fun s hs => by
            obtain ⟨c, hc⟩ := forall₂_mem_left hf2 s hs
            exact ClauseSeg_no_comma hc)
        rw [hsplit, all_seg_iff hf2] at h
        exact h
  · intro hex
    obtain ⟨cs, hre, hall⟩ := hex
    obtain ⟨segs, hf2, hne, hjoin⟩ := regexMatchClauses_decomp hre
    obtain ⟨seg0, rest, rfl⟩ : ∃ seg0 rest, segs = seg0 :: rest := by
      cases segs with
      | nil => exact absurd rfl hne
      | cons a t => exact ⟨a, t, rfl⟩
    have hcs0 : ∃ c0, ClauseSeg seg0 c0 :=
      forall₂_mem_left hf2 seg0 (List.mem_cons_self _ _)
    obtain ⟨c0, hc0⟩ := hcs0
    obtain ⟨ws1, tok, ws2, ws3, ws4, hw1, htok, _, _, _, _, _, heq⟩ := hc0
    obtain ⟨hne2, hhead⟩ := dayTokens_head_shape tok htok
    obtain ⟨tc, trest, rfl⟩ : ∃ tc trest, tok = tc :: trest := by
      cases tok with
      | nil => exact absurd rfl hne2
      | cons a t => exact ⟨a, t, rfl⟩
    have htc_seg : tc ∈ seg0 := by
      rw [heq]
      exact List.mem_append.mpr (Or.inr (List.mem_append.mpr
        (Or.inl (List.mem_cons_self _ _))))
    have htc_t : tc ∈ t.data := by
      rw [hjoin]
      exact mem_joinSep_head htc_seg ',' rest
    have hnn : pyStripL t.data ≠ [] :=
      pyStripL_ne_nil_of_mem htc_t (by simpa using hhead)
    rw [if_neg hnn, hre, if_pos (by simp)]
    have hsplit : pySplit ',' t.data = seg0 :: rest := by
      rw [hjoin]
      exact pySplit_joinSep _ hne (fun s hs => by
        obtain ⟨c, hc⟩ := forall₂_mem_left hf2 s hs
        exact ClauseSeg_no_comma hc)
    rw [hsplit, all_seg_iff hf2]
    exact hall

/-! ### Remaining helpers for the claim theorems -/

/-- The validation loop reports the first offending index, offset by the
    index `k` it starts from. -/
theorem checkFrom_first_bad :
    ∀ (elems : List Json) (i k : Nat) {f : List (String × Json)},
      (∀ j, j < i → ∃ g, elems[j]? = some (Json.obj g) ∧ missingOf g = []) →
      elems[i]? = some (Json.obj f) → missingOf f ≠ [] →
      checkFrom k elems = .error (.valueError (.missingKeys (k + i) (missingOf f)))
  | [], i, k, f, _, hbad, _ => by simp at hbad
  | e :: rest, 0, k, f, _, hbad, hmiss => by
      simp only [List.getElem?_cons_zero, Option.some_inj] at hbad
      subst hbad
      unfold checkFrom
      rw [if_neg hmiss]
      rfl
  | e :: rest, i + 1, k, f, hgood, hbad, hmiss => by
      obtain ⟨g, hg, hgm⟩ := hgood 0 (by omega)
      simp only [List.getElem?_cons_zero, Option.some_inj] at hg
      subst hg
      unfold checkFrom
      rw [if_pos hgm]
      have hrec := checkFrom_first_bad rest i (k + 1)
        (fun j hj => by
          have := hgood (j + 1) (by omega)
          simpa using this)
        (by simpa using hbad) hmiss
      rw [hrec]
      have : k + 1 + i = k + (i + 1) := by omega
      rw [this]

/-- Whether a decoded JSON value is an object (a Python dict, the only
    value with a `.get` method among those `json.loads` can produce). -/
def Json.isObj : Json → Bool
  | .obj _ => true
  | _ => false

theorem buildIntervals_err :
    ∀ {js : List Json}, (∃ j ∈ js, j.isObj = false) →
      buildIntervals js = .error .attributeError
  | [], h => by simp at h
  | j :: rest, h => by
      cases j with
      | obj f =>
        obtain ⟨j', hj', hno⟩ := h
        rcases List.mem_cons.mp hj' with h1 | h1
        · rw [h1] at hno
          exact absurd hno (by simp [Json.isObj])
        · show (match buildIntervals rest with
            | Except.ok ivs => Except.ok (buildInterval f :: ivs)
            | Except.error e => Except.error e) = Except.error PyErr.attributeError
          rw [buildIntervals_err ⟨j', h1, hno⟩]
      | null => rfl
      | bool b => rfl
      | num lx => rfl
      | str s => rfl
      | arr es => rfl

/-- The fields of a decoded JSON object (`[]` for the other values,
    which never reach the serialisation stage: they abort the loop with
    `AttributeError` first). -/
def Json.fieldsOf : Json → List (String × Json)
  | .obj f => f
  | _ => []

/-- When every element is a dictionary, the loop builds one interval per
    element from its fields. -/
theorem buildIntervals_all_obj :
    ∀ {js : List Json}, (∀ j ∈ js, j.isObj = true) →
      buildIntervals js = .ok (js.map (fun j => buildInterval j.fieldsOf))
  | [], _ => rfl
  | j :: rest, h => by
      cases j with
      | obj f =>
        show (match buildIntervals rest with
          | Except.ok ivs => Except.ok (buildInterval f :: ivs)
          | Except.error e => Except.error e) = _
        rw [buildIntervals_all_obj (fun x hx => h x (List.mem_cons_of_mem _ hx))]
        rfl
      | null => exact absurd (h _ (List.mem_cons_self _ _)) (by simp [Json.isObj])
      | bool b => exact absurd (h _ (List.mem_cons_self _ _)) (by simp [Json.isObj])
      | num lx => exact absurd (h _ (List.mem_cons_self _ _)) (by simp [Json.isObj])
      | str s => exact absurd (h _ (List.mem_cons_self _ _)) (by simp [Json.isObj])
      | arr es => exact absurd (h _ (List.mem_cons_self _ _)) (by simp [Json.isObj])

/-- Whether every text of the `Timesheet` built from this element's
    fields serialises — is a string, or falsy and hence written as an
    empty element: the `ET.tostring` success condition for one schedule
    row. -/
def Json.rowTextsOk (j : Json) : Bool :=
  textsOkE (buildInterval j.fieldsOf)

theorem textsOkList_map_rows :
    ∀ js : List Json,
      textsOkList (js.map (fun j => buildInterval j.fieldsOf))
        = js.all (fun j => j.rowTextsOk)
  | [] => rfl
  | j :: rest => by
      simp only [List.map_cons, textsOkList, List.all_cons,
        textsOkList_map_rows rest]
      rfl

/-- The children of an element. -/
def XmlElem.childrenOf : XmlElem → List XmlElem
  | .node _ cs => cs
  | .leaf _ _ => []

/-- Number of lines of a successful conversion that hold an opening
    `Timesheet` tag; zero for an error. -/
def timesheetLineCount (res : Except PyErr String) : Nat :=
  match res with
  | .ok s => ((pySplit '\n' s.data).filter
      (fun l => pyStripL l == "<Timesheet>".data)).length
  | .error _ => 0

/-- The backend payload of the spec's strict-key-validation example: a
    one-element array whose object lacks `endTime`. -/
def c3_payload : String :=
  "[\x7b\"timeReference\": \"UTC\", \"startDate\": \"01-01\", \"endDate\": \"31-12\", \"day\": \"MON\", \"startTime\": \"08:00\"\x7d]"

/-- The decoded fields of `c3_payload`'s single element. -/
def c3_fields : List (String × Json) :=
  [("timeReference", .str "UTC"), ("startDate", .str "01-01"),
   ("endDate", .str "31-12"), ("day", .str "MON"), ("startTime", .str "08:00")]

/-- The defaulting example of the spec: a record missing `endTime`. -/
def c4_record : Rec :=
  [("timeReference", "UTC"), ("startDate", "01-01"), ("endDate", "31-12"),
   ("day", "SAT"), ("startTime", "08:00")]

/-! ### The claims -/

/-- C3: if the backend returns a JSON array in which the element at the
    first offending index `i` is an object missing one or more of the six
    required keys, `parse_schedule_text` (the `USE_MOCK = False` branch)
    fails with a `ValueError` — the spec's `ParseError` — whose message
    names index `i` and the missing key set, and no record list is
    returned. -/
theorem claim_C3 (payload : String) (elems : List Json) (i : Nat)
    (f : List (String × Json))
    (hload : jsonLoads payload = some (Json.arr elems))
    (hgood : ∀ j, j < i → ∃ g, elems[j]? = some (Json.obj g) ∧ missingOf g = [])
    (hbad : elems[i]? = some (Json.obj f))
    (hmiss : missingOf f ≠ []) :
    parse_schedule_text_llm payload
      = .error (.valueError (.missingKeys i (missingOf f))) := by
  unfold parse_schedule_text_llm
  rw [hload]
  show (match checkFrom 0 elems with
    | Except.ok _ => Except.ok elems
    | Except.error e => Except.error e) = _
  rw [checkFrom_first_bad elems i 0 hgood hbad hmiss]
  rw [Nat.zero_add]

set_option maxRecDepth 8192 in
/-- Witness for C3 at the spec's own example: a one-element array whose
    object lacks `endTime` is rejected naming index 0 and `endTime`. -/
theorem claim_C3_witness :
    parse_schedule_text_llm c3_payload
      = .error (.valueError (.missingKeys 0 ["endTime"])) :=
  claim_C3 c3_payload [Json.obj c3_fields] 0 c3_fields (by rfl)
    (fun j hj => absurd hj (by omega)) (by rfl) (by decide)

/-- C7: whenever the backend's payload is not valid JSON, the
    `USE_MOCK = False` branch of `parse_schedule_text` fails with the
    `ValueError("Failed to parse LLM response as JSON")` that the caught
    `json.JSONDecodeError` is converted into — a `ParseError` in the
    spec's vocabulary, and no exception of any other kind. -/
theorem claim_C7 (payload : String) (h : jsonLoads payload = none) :
    parse_schedule_text_llm payload = .error (.valueError .notJson) ∧
    PyErr.isValueError (.valueError .notJson) = true := by
  refine ⟨?_, rfl⟩
  unfold parse_schedule_text_llm
  rw [h]

/-- Witness for C7 at the spec's example payload, the literal string
    `not json`. -/
theorem claim_C7_witness :
    parse_schedule_text_llm "not json" = .error (.valueError .notJson) ∧
    PyErr.isValueError (.valueError .notJson) = true :=
  claim_C7 "not json" (by rfl)

/-- C8, counterexample: neither failure mode of `generate_aixm_xml`
    produces a `ValueError`, the class the code's `RenderError` raise
    would use — a list holding a non-mapping record fails with the
    re-raised `AttributeError` from `sched.get`, and an all-dictionary
    list whose record carries a truthy non-string field value fails
    with the re-raised `TypeError` from `ET.tostring`. -/
theorem claim_C8_counterexample :
    (generate_aixm_xml [Json.str "not a mapping"] = .error .attributeError ∧
      PyErr.isValueError .attributeError = false) ∧
    (generate_aixm_xml [Json.obj [("day", Json.bool true)]] = .error .typeError ∧
      PyErr.isValueError .typeError = false) :=
  ⟨⟨rfl, rfl⟩, ⟨rfl, rfl⟩⟩

/-- C8, amended: `generate_aixm_xml` does fail on a list containing a
    non-mapping element, and on an XML-serialisation failure from a
    truthy non-string field value — but in both cases by propagating the
    underlying exception unchanged (`AttributeError` from `sched.get`,
    `TypeError` from `ET.tostring`), not as the `ValueError` the spec's
    `RenderError` corresponds to: the function's `except KeyError`
    handler, the only one converting to `ValueError`, is dead because
    `dict.get` never raises `KeyError`, and the generic handler
    re-raises. -/
theorem claim_C8 (js : List Json) :
    ((∃ j ∈ js, j.isObj = false) →
      generate_aixm_xml js = .error .attributeError ∧
      PyErr.isValueError .attributeError = false) ∧
    ((∀ j ∈ js, j.isObj = true) → (∃ j ∈ js, j.rowTextsOk = false) →
      generate_aixm_xml js = .error .typeError ∧
      PyErr.isValueError .typeError = false) := by
  constructor
  · intro h
    refine ⟨?_, rfl⟩
    unfold generate_aixm_xml
    rw [buildIntervals_err h]
  · intro hobj hbad
    refine ⟨?_, rfl⟩
    unfold generate_aixm_xml
    simp only [buildIntervals_all_obj hobj]
    have hfalse : textsOkE (.node "PropertiesWithSchedule"
        (js.map (fun j => buildInterval j.fieldsOf))) = false := by
      simp only [textsOkE, textsOkList_map_rows]
      obtain ⟨j, hj, hrow⟩ := hbad
      rw [List.all_eq_false]
      exact ⟨j, hj, by rw [hrow]; exact Bool.noConfusion⟩
    rw [if_neg (fun hc => Bool.noConfusion (hfalse ▸ hc))]

/-- Witness for the amended C8, one instance of each failure mode. -/
theorem claim_C8_witness :
    (generate_aixm_xml [Json.num ['1']] = .error .attributeError ∧
      PyErr.isValueError .attributeError = false) ∧
    (generate_aixm_xml [Json.obj [("startTime", Json.num ['5'])]]
        = .error .typeError ∧
      PyErr.isValueError .typeError = false) :=
  ⟨(claim_C8 [Json.num ['1']]).1 ⟨Json.num ['1'], List.mem_singleton_self _, rfl⟩,
   (claim_C8 [Json.obj [("startTime", Json.num ['5'])]]).2
     (fun j hj => by rw [List.mem_singleton.mp hj]; rfl)
     ⟨Json.obj [("startTime", Json.num ['5'])], List.mem_singleton_self _, rfl⟩⟩

/-- C9, counterexample: the program's character classes are Python's
    Unicode ones, strict supersets of the §6 terminals, so it accepts
    texts outside the §6 grammar — a no-break space where the grammar
    has layout whitespace, and Arabic-Indic digits where `HHMM` demands
    decimal digits (`str.isdigit` passes them and `int` converts them) —
    while the spec-side §6 matcher rejects both texts. -/
theorem claim_C9_counterexample :
    validate_schedule_text "SAT: 0800-1200" = true ∧
    spec6_ok "SAT: 0800-1200" = false ∧
    validate_schedule_text "SAT: ٠٨٠٠-١٢٠٠" = true ∧
    spec6_ok "SAT: ٠٨٠٠-١٢٠٠" = false :=
  ⟨by decide, by decide, by decide, by decide⟩

/-- C9, amended: `validate_schedule_text` returns `True` exactly when
    the source's regex matches the text — with `\s` and `\d` read as
    Python reads them on `str`, the Unicode whitespace and Nd classes,
    strict supersets of the §6 ASCII terminals (see the counterexample)
    — and every matched clause's hour is at most 23 and minute at most
    59; it returns `False` for all other texts. -/
theorem claim_C9 (t : String) :
    validate_schedule_text t = true ↔
      ∃ cs, regexMatchClauses t.data = some cs ∧ cs.all rangeOk = true :=
  validate_characterization t

/-- C10: with `USE_MOCK = True` hard-coded, `parse_schedule_text` ignores
    its input entirely — any two texts, including empty or invalid ones,
    produce the identical fixed two-record list decoded from
    `mock_response`. -/
theorem claim_C10 (t1 t2 : String) :
    parse_schedule_text t1 = parse_schedule_text t2 ∧
    parse_schedule_text t1 = .ok mock_schedules :=
  ⟨rfl, rfl⟩

set_option maxRecDepth 16384 in
/-- C1, failing behaviour: the input `SAT: 0800-1200` passes
    pre-validation and has exactly one comma-separated clause, yet
    `convert_text_to_aixm` emits two `Timesheet` blocks, because
    `parse_schedule_text` hard-codes `USE_MOCK = True` and returns the
    fixed two-record mock regardless of the input — contradicting the
    claim that the output has one `Timesheet` per clause. -/
theorem claim_C1 :
    validate_schedule_text "SAT: 0800-1200" = true ∧
    (pySplit ',' "SAT: 0800-1200".data).length = 1 ∧
    timesheetLineCount (convert_text_to_aixm "SAT: 0800-1200") = 2 :=
  ⟨rfl, rfl, rfl⟩

set_option maxRecDepth 16384 in
/-- C2: on the spec's end-to-end example input, the conversion with the
    mock backend yields exactly the expected document — two `Timesheet`
    blocks in input order, the first with day `WORK DAY` and times
    08:00–18:00, the second with day `SAT` and times 08:00–12:00, both
    with `timeReference` UTC and dates 01-01 to 31-12. -/
theorem claim_C2 :
    convert_text_to_aixm "MON-FRI: 0800-1800, SAT: 0800-1200"
      = .ok "<PropertiesWithSchedule>\n  <timeInterval>\n    <Timesheet>\n      <timeReference>UTC</timeReference>\n      <startDate>01-01</startDate>\n      <endDate>31-12</endDate>\n      <day>WORK DAY</day>\n      <startTime>08:00</startTime>\n      <endTime>18:00</endTime>\n    </Timesheet>\n  </timeInterval>\n  <timeInterval>\n    <Timesheet>\n      <timeReference>UTC</timeReference>\n      <startDate>01-01</startDate>\n      <endDate>31-12</endDate>\n      <day>SAT</day>\n      <startTime>08:00</startTime>\n      <endTime>12:00</endTime>\n    </Timesheet>\n  </timeInterval>\n</PropertiesWithSchedule>" ∧
    timesheetLineCount (convert_text_to_aixm "MON-FRI: 0800-1800, SAT: 0800-1200") = 2 :=
  ⟨rfl, rfl⟩

set_option maxRecDepth 16384 in
/-- C4: every required field absent from a record is replaced by its
    fixed default in the emitted `Timesheet` — `timeReference` by `UTC`,
    `startDate` by `01-01`, `endDate` by `31-12`, `day` by `EVERY DAY`,
    `startTime` by `00:00`, `endTime` by `23:59` — and rendering still
    succeeds; in particular the spec's record lacking `endTime` renders
    to valid XML whose `endTime` element holds `23:59`. -/
theorem claim_C4 :
    (∀ fields : List (String × Json),
      (pyLookup "timeReference" fields = none →
        (buildTimesheet fields).childrenOf[0]?
          = some (.leaf "timeReference" (.str "UTC"))) ∧
      (pyLookup "startDate" fields = none →
        (buildTimesheet fields).childrenOf[1]?
          = some (.leaf "startDate" (.str "01-01"))) ∧
      (pyLookup "endDate" fields = none →
        (buildTimesheet fields).childrenOf[2]?
          = some (.leaf "endDate" (.str "31-12"))) ∧
      (pyLookup "day" fields = none →
        (buildTimesheet fields).childrenOf[3]?
          = some (.leaf "day" (.str "EVERY DAY"))) ∧
      (pyLookup "startTime" fields = none →
        (buildTimesheet fields).childrenOf[4]?
          = some (.leaf "startTime" (.str "00:00"))) ∧
      (pyLookup "endTime" fields = none →
        (buildTimesheet fields).childrenOf[5]?
          = some (.leaf "endTime" (.str "23:59")))) ∧
    generate_aixm_xml [recJson c4_record]
      = .ok "<PropertiesWithSchedule>\n  <timeInterval>\n    <Timesheet>\n      <timeReference>UTC</timeReference>\n      <startDate>01-01</startDate>\n      <endDate>31-12</endDate>\n      <day>SAT</day>\n      <startTime>08:00</startTime>\n      <endTime>23:59</endTime>\n    </Timesheet>\n  </timeInterval>\n</PropertiesWithSchedule>" := by
  constructor
  · intro fields
    refine ⟨?_, ?_, ?_, ?_, ?_, ?_⟩ <;>
      (intro h; simp [buildTimesheet, XmlElem.childrenOf, pyGet, h])
  · rfl

set_option maxRecDepth 16384 in
/-- Witness for C4: the spec's record lacking `endTime` indeed has no
    `endTime` binding, and its `Timesheet`'s sixth child is the
    defaulted `endTime` leaf holding `23:59`. -/
theorem claim_C4_witness :
    (buildTimesheet (recFields c4_record)).childrenOf[5]?
      = some (.leaf "endTime" (.str "23:59")) :=
  (claim_C4.1 (recFields c4_record)).2.2.2.2.2 (by rfl)

/-- C5: rendering a record list builds, in input order with no sorting,
    deduplication or merging, one `timeInterval` element per record — the
    `i`-th interval for the `i`-th record — each containing exactly one
    `Timesheet` element with exactly six children in the fixed order
    `timeReference`, `startDate`, `endDate`, `day`, `startTime`,
    `endTime`. -/
theorem claim_C5 (rs : List Rec) (i : Nat) (h : i < rs.length) :
    ∃ ivs, buildIntervals (rs.map recJson) = .ok ivs ∧
      ivs.length = rs.length ∧
      ivs[i]? = some (.node "timeInterval" [.node "Timesheet"
        [ .leaf "timeReference" (.str (rget rs[i] "timeReference" "UTC")),
          .leaf "startDate" (.str (rget rs[i] "startDate" "01-01")),
          .leaf "endDate" (.str (rget rs[i] "endDate" "31-12")),
          .leaf "day" (.str (rget rs[i] "day" "EVERY DAY")),
          .leaf "startTime" (.str (rget rs[i] "startTime" "00:00")),
          .leaf "endTime" (.str (rget rs[i] "endTime" "23:59")) ]]) := by
  refine ⟨rs.map (fun r => buildInterval (recFields r)),
    buildIntervals_recJson rs, by simp, ?_⟩
  rw [List.getElem?_map, List.getElem?_eq_getElem h]
  unfold buildInterval buildTimesheet
  simp only [Option.map_some']
  rw [pyGet_recFields, pyGet_recFields, pyGet_recFields, pyGet_recFields,
    pyGet_recFields, pyGet_recFields]

/-- Witness for C5 at a concrete two-record list and index 1. -/
theorem claim_C5_witness :
    ∃ ivs, buildIntervals
        ([[("day", "MON")], [("day", "TUE"), ("startTime", "09:00")]].map recJson)
      = .ok ivs ∧
      ivs.length = 2 ∧
      ivs[1]? = some (.node "timeInterval" [.node "Timesheet"
        [ .leaf "timeReference" (.str "UTC"),
          .leaf "startDate" (.str "01-01"),
          .leaf "endDate" (.str "31-12"),
          .leaf "day" (.str "TUE"),
          .leaf "startTime" (.str "09:00"),
          .leaf "endTime" (.str "23:59") ]]) :=
  claim_C5 [[("day", "MON")], [("day", "TUE"), ("startTime", "09:00")]] 1
    (by decide)

/-- C6: when every rendered text is XML-serialisable the conversion
    returns the pretty string of the line-ending-normalised records, and
    otherwise it fails with the parser's `ExpatError` and returns no
    string at all; the returned string never begins with an XML
    declaration and has no blank lines; `escChar` leaves every non-ASCII
    character untouched; and when no record value embeds a raw newline
    or carriage return — the only case in which the pipeline keeps
    values out of the line filter and the line-ending normalisation —
    the records render unchanged, every line is a tag line indented by
    exactly two spaces per depth level (depth at most 3), and a `day`
    value free of the four XML-escaped characters appears verbatim
    inside its `<day>` element's line. -/
theorem claim_C6 (rs : List Rec) :
    (recsXmlOk rs = true →
      generate_aixm_xml (rs.map recJson) = .ok (renderedOf (rs.map recNorm))) ∧
    (recsXmlOk rs = false →
      generate_aixm_xml (rs.map recJson) = .error .expatError) ∧
    startsWithL "<?xml".data (renderedOf (rs.map recNorm)).data = false ∧
    (∀ l ∈ pySplit '\n' (renderedOf (rs.map recNorm)).data, pyStripL l ≠ []) ∧
    (∀ c : Char, 128 ≤ c.toNat → escChar c = [c]) ∧
    ((∀ r ∈ rs, ∀ kv ∈ r,
        '\n' ∉ (kv.2 : String).data ∧ '\r' ∉ (kv.2 : String).data) →
      rs.map recNorm = rs ∧
      (∀ l ∈ pySplit '\n' (renderedOf rs).data,
        ∃ d s, d ≤ 3 ∧ l = indentL d ++ '<' :: (s ++ ['>'])) ∧
      (∀ r ∈ rs, (rget r "day" "EVERY DAY").data ≠ [] →
        (∀ c ∈ (rget r "day" "EVERY DAY").data,
          c ≠ '&' ∧ c ≠ '<' ∧ c ≠ '"' ∧ c ≠ '>') →
        "      <day>".data ++ ((rget r "day" "EVERY DAY").data ++ "</day>".data)
          ∈ pySplit '\n' (renderedOf rs).data)) := by
  refine ⟨generate_renderedOf rs, generate_expatError rs,
    renderedOf_no_decl (rs.map recNorm), renderedOf_no_blank (rs.map recNorm),
    ?_, ?_⟩
  · intro c hc
    refine escChar_of_plain ?_ ?_ ?_ ?_ <;>
      (intro he; subst he; revert hc; decide)
  · intro hclean
    have hnl : ∀ r ∈ rs, ∀ kv ∈ r, '\n' ∉ (kv.2 : String).data :=
      fun r hr kv hkv => (hclean r hr kv hkv).1
    have hid : rs.map recNorm = rs :=
      recNorm_map_id (fun r hr kv hkv => (hclean r hr kv hkv).2)
    refine ⟨hid, ?_, ?_⟩
    · intro l hl
      rw [renderedOf_split] at hl
      cases rs with
      | nil =>
        rw [show keptOf [] = ["<PropertiesWithSchedule/>".data] from by decide] at hl
        rw [List.mem_singleton.mp hl]
        exact ⟨0, "PropertiesWithSchedule/".data, by omega, by decide⟩
      | cons r rest =>
        rw [keptOf_clean r rest hnl] at hl
        rcases List.mem_cons.mp hl with h1 | h1
        · exact ⟨0, "PropertiesWithSchedule".data, by omega, by rw [h1]; decide⟩
        rcases List.mem_append.mp h1 with h2 | h2
        · obtain ⟨r', _, hl2⟩ := List.mem_flatMap.mp h2
          obtain ⟨d, s, _, hd3, hshape⟩ := tsLines_shape r' l hl2
          exact ⟨d, s, hd3, hshape⟩
        · rw [List.mem_singleton.mp h2]
          exact ⟨0, "/PropertiesWithSchedule".data, by omega, by decide⟩
    · intro r hr hne hplain
      rw [renderedOf_split]
      cases rs with
      | nil => exact absurd hr (List.not_mem_nil r)
      | cons r0 rest =>
        rw [keptOf_clean r0 rest hnl]
        have hline : leafLine 3 "day" (rget r "day" "EVERY DAY")
            = "      <day>".data
              ++ ((rget r "day" "EVERY DAY").data ++ "</day>".data) := by
          unfold leafLine
          rw [if_neg hne, escText_id hplain]
          simp only [List.append_assoc, List.cons_append]
          rfl
        refine List.mem_cons.mpr (Or.inr (List.mem_append.mpr (Or.inl ?_)))
        refine List.mem_flatMap.mpr ⟨r, hr, ?_⟩
        rw [← hline]
        unfold tsLines
        simp

/-- Witness for C6 at a one-record list whose `day` value holds
    non-ASCII characters: the record passes the serialisability gate and
    the value appears verbatim in its `day` line. -/
theorem claim_C6_witness :
    "      <day>".data ++ ("é ü".data ++ "</day>".data)
      ∈ pySplit '\n' (renderedOf [[("day", "é ü")]]).data :=
  ((claim_C6 [[("day", "é ü")]]).2.2.2.2.2 (by decide)).2.2 [("day", "é ü")]
    (by decide) (by decide) (by decide)

end ScheduleConv
